import Mathlib

/-!
Verification development for `contrib/generate.py`, a one-shot utility that
loads a "profile" and a "fit" module from an SDK path, extracts a fixed set
of named objects, and serializes them to JSON files.

The embedding below models:
* JSON-serializable values (`Json`; numbers are modelled as integers — the
  tables exported by the tool are integer/string keyed dictionaries),
* Python's `json.dumps` with its default separators `", "`/`": "` and with
  `indent=2` (`encJson`, `encP`), including `ensure_ascii` string escaping,
* Python's `json.loads` at the same value level (`parseVal`, `json_loads`),
* the module resolver `find_module` over an abstract filesystem/loader
  environment (`Env`), where a raised load-time exception is an explicit
  `Except.error` outcome,
* the extractor `extract_fit_objects` over attribute namespaces,
* the writer `write_json_file` and the orchestrator `main` (`run_main`) as
  state transformers over an explicit filesystem state `FS`.
-/

/-- JSON-serializable values.  Numbers are modelled as integers; object
fields keep Python's dict insertion order. -/
inductive Json where
  | null : Json
  | bool (b : Bool) : Json
  | num (n : Int) : Json
  | str (s : String) : Json
  | arr (elems : List Json) : Json
  | obj (fields : List (String × Json)) : Json
deriving Repr

/-- A Python value as seen by the writer: either JSON-serializable, or a
value with no JSON representation (on which `json.dumps` raises
`TypeError`). -/
inductive PyValue where
  | ser (j : Json) : PyValue
  | bad : PyValue
deriving Repr

/-- A loaded module's top-level namespace: `getattr`-style lookup. `none`
means the attribute is absent (`hasattr` is false). -/
def Namespace : Type := String → Option PyValue

/-- Character constants used by the serializer and parser. -/
def qChar : Char := Char.ofNat 34

def bsChar : Char := Char.ofNat 92

def lbChar : Char := '['

def rbChar : Char := ']'

def obChar : Char := Char.ofNat 123

def cbChar : Char := Char.ofNat 125

def nlChar : Char := Char.ofNat 10

/-- Lowercase hex digit, as used by Python's `\uXXXX` escapes. -/
def hexDigitChar (n : Nat) : Char :=
  if n < 10 then Char.ofNat (48 + n) else Char.ofNat (87 + n)

/-- Four lowercase hex digits of `n % 0x10000`, most significant first. -/
def hex4 (n : Nat) : List Char :=
  [hexDigitChar (n / 4096 % 16), hexDigitChar (n / 256 % 16),
   hexDigitChar (n / 16 % 16), hexDigitChar (n % 16)]

/-- `ensure_ascii` escaping of one character, as in CPython's
`json.encoder.py_encode_basestring_ascii`: the seven short escapes, `\u00XX`
for other control characters, printable ASCII kept as-is, `\uXXXX` for
non-ASCII BMP characters, and surrogate pairs beyond the BMP. -/
def escChar (c : Char) : List Char :=
  if c = qChar then [bsChar, qChar]
  else if c = bsChar then [bsChar, bsChar]
  else if c = Char.ofNat 8 then [bsChar, 'b']
  else if c = Char.ofNat 12 then [bsChar, 'f']
  else if c = nlChar then [bsChar, 'n']
  else if c = Char.ofNat 13 then [bsChar, 'r']
  else if c = Char.ofNat 9 then [bsChar, 't']
  else if c.toNat < 32 then bsChar :: 'u' :: hex4 c.toNat
  else if c.toNat < 127 then [c]
  else if c.toNat < 65536 then bsChar :: 'u' :: hex4 c.toNat
  else
    (bsChar :: 'u' :: hex4 (55296 + (c.toNat - 65536) / 1024)) ++
      (bsChar :: 'u' :: hex4 (56320 + (c.toNat - 65536) % 1024))

/-- A JSON string literal: quote, escaped characters, quote. -/
def encStr (s : String) : List Char :=
  qChar :: (s.data.flatMap escChar) ++ [qChar]

/-- Decimal digits with explicit fuel (structural recursion, so values
compute by kernel reduction). -/
def natDigitsF : Nat → Nat → List Char
  | 0, _ => []
  | f + 1, n =>
    if n < 10 then [hexDigitChar n]
    else natDigitsF f (n / 10) ++ [hexDigitChar (n % 10)]

/-- Decimal digits of a natural number, most significant first. -/
def natDigits (n : Nat) : List Char := natDigitsF (n + 1) n

/-- Python's `repr` of an integer: optional minus sign and decimal digits. -/
def intChars : Int → List Char
  | Int.ofNat n => natDigits n
  | Int.negSucc n => '-' :: natDigits (n + 1)

mutual

/-- `json.dumps(value)` with the default separators `", "` and `": "`
(the compact single-line form emitted by the tool when `--pretty` is not
given). -/
def encJson : Json → List Char
  | Json.null => ['n', 'u', 'l', 'l']
  | Json.bool true => ['t', 'r', 'u', 'e']
  | Json.bool false => ['f', 'a', 'l', 's', 'e']
  | Json.num n => intChars n
  | Json.str s => encStr s
  | Json.arr [] => [lbChar, rbChar]
  | Json.arr (x :: xs) => lbChar :: (encJson x ++ encArrRest xs) ++ [rbChar]
  | Json.obj [] => [obChar, cbChar]
  | Json.obj ((k, v) :: kvs) =>
      obChar :: (encStr k ++ ':' :: ' ' :: encJson v ++ encObjRest kvs) ++ [cbChar]

/-- Remaining array elements, each preceded by the item separator `", "`. -/
def encArrRest : List Json → List Char
  | [] => []
  | x :: xs => ',' :: ' ' :: encJson x ++ encArrRest xs

/-- Remaining object members, each preceded by `", "`, keys joined to values
by `": "`. -/
def encObjRest : List (String × Json) → List Char
  | [] => []
  | (k, v) :: kvs => ',' :: ' ' :: encStr k ++ ':' :: ' ' :: encJson v ++ encObjRest kvs

end

/-- Newline followed by the 2-space-per-level indentation used by
`json.dumps(value, indent=2)`. -/
def nlInd (level : Nat) : List Char :=
  nlChar :: List.replicate (2 * level) ' '

mutual

/-- `json.dumps(value, indent=2)`: each container puts every element on its
own line, indented two further spaces, with item separator `","` and key
separator `": "`. `level` is the current nesting depth. -/
def encP : Nat → Json → List Char
  | _, Json.arr [] => [lbChar, rbChar]
  | level, Json.arr (x :: xs) =>
      lbChar :: (nlInd (level + 1) ++ encP (level + 1) x ++
        encPArrRest (level + 1) xs ++ nlInd level) ++ [rbChar]
  | _, Json.obj [] => [obChar, cbChar]
  | level, Json.obj ((k, v) :: kvs) =>
      obChar :: (nlInd (level + 1) ++ encStr k ++ ':' :: ' ' :: encP (level + 1) v ++
        encPObjRest (level + 1) kvs ++ nlInd level) ++ [cbChar]
  | _, j => encJson j

/-- Remaining array elements in indented form. -/
def encPArrRest : Nat → List Json → List Char
  | _, [] => []
  | level, x :: xs => ',' :: nlInd level ++ encP level x ++ encPArrRest level xs

/-- Remaining object members in indented form. -/
def encPObjRest : Nat → List (String × Json) → List Char
  | _, [] => []
  | level, (k, v) :: kvs =>
      ',' :: nlInd level ++ encStr k ++ ':' :: ' ' :: encP level v ++ encPObjRest level kvs

end

/-- The serialization step of `write_json_file`: `json.dumps(data, indent=2)`
when pretty, `json.dumps(data)` otherwise; `none` models the raised
`TypeError` for a value with no JSON representation. -/
def json_dumps (pretty : Bool) : PyValue → Option String
  | PyValue.ser j => some (String.mk (if pretty then encP 0 j else encJson j))
  | PyValue.bad => none

/-- JSON whitespace, as accepted between tokens by `json.loads`. -/
def isWsChar (c : Char) : Bool :=
  c = ' ' || c = Char.ofNat 9 || c = nlChar || c = Char.ofNat 13

/-- Skip leading JSON whitespace. -/
def skipWs : List Char → List Char
  | [] => []
  | c :: cs => if isWsChar c then skipWs cs else c :: cs

/-- Value of one hex digit (either case), `none` for non-hex characters. -/
def hexVal (c : Char) : Option Nat :=
  if 48 ≤ c.toNat ∧ c.toNat ≤ 57 then some (c.toNat - 48)
  else if 97 ≤ c.toNat ∧ c.toNat ≤ 102 then some (c.toNat - 87)
  else if 65 ≤ c.toNat ∧ c.toNat ≤ 70 then some (c.toNat - 55)
  else none

/-- Read four hex digits into their value. -/
def readHex4 : List Char → Option (Nat × List Char)
  | h1 :: h2 :: h3 :: h4 :: cs =>
    match hexVal h1, hexVal h2, hexVal h3, hexVal h4 with
    | some a, some b, some c, some d => some (4096 * a + 256 * b + 16 * c + d, cs)
    | _, _, _, _ => none
  | _ => none

/-- Decode a `\uXXXX` escape after the `u`: a non-surrogate code unit stands
for itself; a high surrogate must be followed by an escaped low surrogate
and the pair combines into one supplementary character; a lone surrogate is
rejected (such a code unit has no scalar-value model here). -/
def decodeUni (cs : List Char) : Option (Char × List Char) :=
  match readHex4 cs with
  | none => none
  | some (n, cs3) =>
    if n < 55296 ∨ 57344 ≤ n then some (Char.ofNat n, cs3)
    else if n < 56320 then
      match cs3 with
      | e1 :: e2 :: cs3b =>
        if e1 = bsChar ∧ e2 = 'u' then
          match readHex4 cs3b with
          | some (m, cs4) =>
            if 56320 ≤ m ∧ m < 57344 then
              some (Char.ofNat (65536 + (n - 55296) * 1024 + (m - 56320)), cs4)
            else none
          | none => none
        else none
      | _ => none
    else none

/-- Decode one escape sequence after a backslash: the short escapes and
`\uXXXX`, returning the decoded character and the remaining input. -/
def decodeEsc : List Char → Option (Char × List Char)
  | [] => none
  | e :: cs =>
    if e = qChar then some (qChar, cs)
    else if e = bsChar then some (bsChar, cs)
    else if e = '/' then some ('/', cs)
    else if e = 'b' then some (Char.ofNat 8, cs)
    else if e = 'f' then some (Char.ofNat 12, cs)
    else if e = 'n' then some (nlChar, cs)
    else if e = 'r' then some (Char.ofNat 13, cs)
    else if e = 't' then some (Char.ofNat 9, cs)
    else if e = 'u' then decodeUni cs
    else none

/-- Body of a JSON string literal after the opening quote, with explicit
fuel: decodes escapes and plain characters until the closing quote, and
returns the decoded characters together with the remaining input.  Control
characters must be escaped (`json.loads` is strict). -/
def parseStrBodyF : Nat → List Char → Option (List Char × List Char)
  | 0, _ => none
  | _ + 1, [] => none
  | f + 1, c :: cs =>
    if c = qChar then some ([], cs)
    else if c = bsChar then
      match decodeEsc cs with
      | none => none
      | some (d, cs2) => (parseStrBodyF f cs2).map (fun p => (d :: p.1, p.2))
    else if c.toNat < 32 then none
    else (parseStrBodyF f cs).map (fun p => (c :: p.1, p.2))

/-- Body of a JSON string literal after the opening quote.  One fuel unit
yields at least one decoded character, so `length + 1` fuel is enough for
every input this can succeed on. -/
def parseStrBody (l : List Char) : Option (List Char × List Char) :=
  parseStrBodyF (l.length + 1) l

/-- Greedily consume decimal digits, accumulating their value onto `acc`. -/
def parseNatAux (acc : Nat) : List Char → Nat × List Char
  | [] => (acc, [])
  | c :: cs => if c.isDigit then parseNatAux (10 * acc + (c.toNat - 48)) cs else (acc, c :: cs)

/-- Does the input not start with a digit (so a preceding number literal
cannot be extended)? -/
def noDig : List Char → Bool
  | [] => true
  | c :: _ => !c.isDigit

mutual

/-- Parse one JSON value (integer numbers only, matching the serializer's
value model).  `fuel` bounds the recursion depth; `json_loads` passes enough
fuel for any input it can succeed on.  Returns the value and the remaining
input (no trailing whitespace skipped). -/
def parseVal : Nat → List Char → Option (Json × List Char)
  | 0, _ => none
  | _ + 1, [] => none
  | fuel + 1, c :: r =>
    if c = 'n' then
      match r with
      | 'u' :: 'l' :: 'l' :: r2 => some (Json.null, r2)
      | _ => none
    else if c = 't' then
      match r with
      | 'r' :: 'u' :: 'e' :: r2 => some (Json.bool true, r2)
      | _ => none
    else if c = 'f' then
      match r with
      | 'a' :: 'l' :: 's' :: 'e' :: r2 => some (Json.bool false, r2)
      | _ => none
    else if c = qChar then
      (parseStrBody r).map (fun p => (Json.str (String.mk p.1), p.2))
    else if c = '-' then
      match r with
      | c2 :: r2 =>
        if c2.isDigit then
          let p := parseNatAux (c2.toNat - 48) r2
          some (Json.num (-(p.1 : Int)), p.2)
        else none
      | [] => none
    else if c.isDigit then
      let p := parseNatAux (c.toNat - 48) r
      some (Json.num (p.1 : Int), p.2)
    else if c = lbChar then
      match skipWs r with
      | [] => none
      | c2 :: r2 =>
        if c2 = rbChar then some (Json.arr [], r2)
        else
          match parseVal fuel (c2 :: r2) with
          | none => none
          | some (x, r3) =>
            match parseArrRest fuel (skipWs r3) with
            | none => none
            | some (xs, r4) => some (Json.arr (x :: xs), r4)
    else if c = obChar then
      match skipWs r with
      | [] => none
      | c2 :: r2 =>
        if c2 = cbChar then some (Json.obj [], r2)
        else if c2 = qChar then
          match parseStrBody r2 with
          | none => none
          | some (k, r3) =>
            match skipWs r3 with
            | ':' :: r4 =>
              match parseVal fuel (skipWs r4) with
              | none => none
              | some (v, r5) =>
                match parseObjRest fuel (skipWs r5) with
                | none => none
                | some (kvs, r6) => some (Json.obj ((String.mk k, v) :: kvs), r6)
            | _ => none
        else none
    else none

/-- After one array element: expect `]` (end) or `,` followed by the next
element, whitespace-tolerant. -/
def parseArrRest : Nat → List Char → Option (List Json × List Char)
  | 0, _ => none
  | _ + 1, [] => none
  | fuel + 1, c :: r =>
    if c = rbChar then some ([], r)
    else if c = ',' then
      match parseVal fuel (skipWs r) with
      | none => none
      | some (x, r2) =>
        match parseArrRest fuel (skipWs r2) with
        | none => none
        | some (xs, r3) => some (x :: xs, r3)
    else none

/-- After one object member: expect a closing brace (end) or `,` followed by
the next `"key": value` member, whitespace-tolerant. -/
def parseObjRest : Nat → List Char → Option (List (String × Json) × List Char)
  | 0, _ => none
  | _ + 1, [] => none
  | fuel + 1, c :: r =>
    if c = cbChar then some ([], r)
    else if c = ',' then
      match skipWs r with
      | c2 :: r2 =>
        if c2 = qChar then
          match parseStrBody r2 with
          | none => none
          | some (k, r3) =>
            match skipWs r3 with
            | ':' :: r4 =>
              match parseVal fuel (skipWs r4) with
              | none => none
              | some (v, r5) =>
                match parseObjRest fuel (skipWs r5) with
                | none => none
                | some (kvs, r6) => some ((String.mk k, v) :: kvs, r6)
            | _ => none
        else none
      | [] => none
    else none

end

/-- `json.loads`: skip leading whitespace, parse one value, and require that
only whitespace follows it (otherwise "Extra data"). The fuel
`length + 1` suffices for every text the parser can accept at all. -/
def json_loads (s : String) : Option Json :=
  let r := skipWs s.data
  match parseVal (r.length + 1) r with
  | some (j, rest) => if skipWs rest = [] then some j else none
  | none => none

/-- The known fit-module names, in the order `extract_fit_objects` checks
them. -/
def fitNames : List String :=
  ["BASE_TYPE", "FIELD_TYPE_TO_BASE_TYPE", "BASE_TYPE_DEFINITIONS", "NUMERIC_FIELD_TYPES"]

/-- `extract_fit_objects(fit_module)`: check each of the four known names
with `hasattr` and copy the present ones, in order, into a fresh dict. -/
def extract_fit_objects (fit_module : Namespace) : List (String × PyValue) :=
  (match fit_module "BASE_TYPE" with
   | some v => [("BASE_TYPE", v)]
   | none => []) ++
  (match fit_module "FIELD_TYPE_TO_BASE_TYPE" with
   | some v => [("FIELD_TYPE_TO_BASE_TYPE", v)]
   | none => []) ++
  (match fit_module "BASE_TYPE_DEFINITIONS" with
   | some v => [("BASE_TYPE_DEFINITIONS", v)]
   | none => []) ++
  (match fit_module "NUMERIC_FIELD_TYPES" with
   | some v => [("NUMERIC_FIELD_TYPES", v)]
   | none => [])

/-- Resolver-relevant facts about one module name at the configured path:
does the derived `<name>.py` file exist (consulted when the path is a
directory), does `spec_from_file_location` produce a spec, and what
executing the module does — either a raised exception (message) or the
resulting namespace. -/
structure ModEnv where
  fileExists : Bool
  specOk : Bool
  exec : Except String Namespace

/-- The external environment of one run: the configured `--path` (its string,
whether it exists, whether it is a directory), the per-module-name loader
facts, and oracles for filesystem failures (`open`/`write` raising for a
given file path; `mkdir` raising for a given directory). -/
structure Env where
  path : String
  pathExists : Bool
  isDir : Bool
  mods : String → ModEnv
  writeFails : String → Bool
  mkdirFails : String → Bool

/-- `find_module(path, module_name)`: `none` when the path (or, for a
directory, the derived `<module_name>.py`) does not exist or no spec can be
created; `Except.error` when executing the located module raises — that
exception propagates out of `find_module` uncaught. -/
def find_module (env : Env) (module_name : String) : Except String (Option Namespace) :=
  if !env.pathExists then Except.ok none
  else
    let m := env.mods module_name
    if env.isDir && !m.fileExists then Except.ok none
    else if !m.specOk then Except.ok none
    else
      match m.exec with
      | Except.error e => Except.error e
      | Except.ok ns => Except.ok (some ns)

/-- Filesystem state: the set of directories created and the files present
(path to contents; later entries are shadowed by earlier ones). -/
structure FS where
  dirs : List String
  files : List (String × String)
deriving Repr, DecidableEq

/-- Record a directory as existing (`mkdir` with `exist_ok=True`). -/
def FS.addDir (fs : FS) (d : String) : FS :=
  if d ∈ fs.dirs then fs else { fs with dirs := d :: fs.dirs }

/-- Create or overwrite a file. -/
def FS.setFile (fs : FS) (p c : String) : FS :=
  { fs with files := (p, c) :: fs.files.filter (fun e => !(e.1 == p)) }

/-- How a run of `main` ends: `sys.exit`/normal return with an exit code, or
an unhandled exception. -/
inductive Outcome where
  | exited (code : Nat) : Outcome
  | raised (e : String) : Outcome
deriving Repr, DecidableEq

/-- `write_json_file(data, output_path, pretty)` where `output_path` is
`dir/fname`: serialize first; then create the parent directory; then open
and write.  Every failure (`TypeError` from `json.dumps`, `OSError` from
`mkdir`, `IOError` from `open`/`write`) is caught and reported as `false`. -/
def write_json_file (env : Env) (data : PyValue) (dir fname : String) (pretty : Bool)
    (fs : FS) : Bool × FS :=
  match json_dumps pretty data with
  | none => (false, fs)
  | some s =>
    if env.mkdirFails dir then (false, fs)
    else
      let fs1 := fs.addDir dir
      if env.writeFails (dir ++ "/" ++ fname) then (false, fs1)
      else (true, fs1.setFile (dir ++ "/" ++ fname) s)

/-- Whether a `write_json_file` call will report success (independent of the
filesystem value, which only receives the effects). -/
def writeOk (env : Env) (data : PyValue) (dir fname : String) (pretty : Bool) : Bool :=
  match json_dumps pretty data with
  | none => false
  | some _ => !env.mkdirFails dir && !env.writeFails (dir ++ "/" ++ fname)

/-- Python's `None` as a value result collapses with "no value": in this
embedding `PyValue.ser Json.null` stands for the object `None`, and an
`Option PyValue` whose payload is that object denotes the same Python
outcome as `none`.  `dict.get(key)` returns `None` both when the key is
absent and when the stored value is `None` itself, so the loop's
`if data is not None:` test cannot tell the two apart. -/
def noneCollapse : Option PyValue → Option PyValue
  | some (PyValue.ser Json.null) => none
  | v => v

/-- `fit_objects.get(NAME)` as consumed by the write loop: the stored value
if present and not `None`, otherwise Python `None` (modelled `none`). -/
def fitGet (objs : List (String × PyValue)) (name : String) : Option PyValue :=
  noneCollapse (objs.lookup name)

/-- The `fit_files` dict of `main`: fixed file names, in insertion order,
each valued by `fit_objects.get(NAME)` — `none` stands for the Python `None`
that the loop's `if data is not None:` guard tests for. -/
def fitEntries (objs : List (String × PyValue)) : List (String × Option PyValue) :=
  [("base_type.json", fitGet objs "BASE_TYPE"),
   ("field_type_to_base_type.json", fitGet objs "FIELD_TYPE_TO_BASE_TYPE"),
   ("base_type_definitions.json", fitGet objs "BASE_TYPE_DEFINITIONS"),
   ("numeric_field_types.json", fitGet objs "NUMERIC_FIELD_TYPES")]

/-- The write loop of `main` over `fit_files`: a `None` value prints a
warning; a present value is written, a failure clearing the overall success
flag without stopping the loop.  Returns the success flag, the filesystem,
the attempted writes (path, succeeded) in order, and the warning count. -/
def write_fits (env : Env) (outDir : String) (pretty : Bool) :
    List (String × Option PyValue) → FS → Bool × FS × List (String × Bool) × Nat
  | [], fs => (true, fs, [], 0)
  | (_, none) :: rest, fs =>
    let r := write_fits env outDir pretty rest fs
    (r.1, r.2.1, r.2.2.1, r.2.2.2 + 1)
  | (fname, some d) :: rest, fs =>
    let w := write_json_file env d outDir fname pretty fs
    let r := write_fits env outDir pretty rest w.2
    (w.1 && r.1, r.2.1, (outDir ++ "/" ++ fname, w.1) :: r.2.2.1, r.2.2.2)

/-- Diagnostic printed when the profile module cannot be found or loaded. -/
def profileLoadErr (p : String) : String :=
  "Error: Could not find or load profile module at " ++ p

/-- Diagnostic printed when the fit module cannot be found or loaded. -/
def fitLoadErr (p : String) : String :=
  "Error: Could not find or load fit module at " ++ p

/-- Diagnostic printed when the profile module lacks a Profile attribute. -/
def noProfileErr : String :=
  "Error: The profile module does not contain a \x27Profile\x27 object"

/-- Diagnostic printed when none of the four fit names could be extracted. -/
def noFitObjsErr : String :=
  "Error: Could not extract required objects from fit module"

/-- The result of one run of `main`: final filesystem, how the process
ended, the attempted writes (path, succeeded) in order, the number of
missing-fit-name warnings, and the orchestrator-level error diagnostics. -/
structure RunResult where
  fs : FS
  outcome : Outcome
  writeResults : List (String × Bool)
  warnings : Nat
  errs : List String
deriving Repr, DecidableEq

/-- `main()` for a parsed command line (`--path` facts inside `env`,
`--output outDir`, `--pretty`): resolve the profile module, require
`Profile`, resolve the fit module, extract the four names (requiring at
least one), create the output directory, write `profile.json` (a failure
exits immediately), then write each present fit object, continuing past
failures; exit 0 only if every attempted write succeeded.  An exception
raised while loading a module (or by the output-directory `mkdir`)
propagates unhandled. -/
def run_main (env : Env) (outDir : String) (pretty : Bool) (fs : FS) : RunResult :=
  match find_module env "profile" with
  | Except.error e => ⟨fs, Outcome.raised e, [], 0, []⟩
  | Except.ok none => ⟨fs, Outcome.exited 1, [], 0, [profileLoadErr env.path]⟩
  | Except.ok (some profile_module) =>
    match profile_module "Profile" with
    | none => ⟨fs, Outcome.exited 1, [], 0, [noProfileErr]⟩
    | some profileVal =>
      match find_module env "fit" with
      | Except.error e => ⟨fs, Outcome.raised e, [], 0, []⟩
      | Except.ok none => ⟨fs, Outcome.exited 1, [], 0, [fitLoadErr env.path]⟩
      | Except.ok (some fit_module) =>
        let fit_objects := extract_fit_objects fit_module
        if fit_objects.isEmpty then ⟨fs, Outcome.exited 1, [], 0, [noFitObjsErr]⟩
        else if env.mkdirFails outDir then ⟨fs, Outcome.raised "OSError", [], 0, []⟩
        else
          let fs1 := fs.addDir outDir
          let w := write_json_file env profileVal outDir "profile.json" pretty fs1
          if !w.1 then ⟨w.2, Outcome.exited 1, [(outDir ++ "/profile.json", false)], 0, []⟩
          else
            let r := write_fits env outDir pretty (fitEntries fit_objects) w.2
            ⟨r.2.1, if r.1 then Outcome.exited 0 else Outcome.exited 1,
             (outDir ++ "/profile.json", true) :: r.2.2.1, r.2.2.2, []⟩

mutual

/-- Fuel measure of a value: enough `parseVal` fuel to parse its encoding. -/
def jsize : Json → Nat
  | Json.arr xs => 1 + jsizeL xs
  | Json.obj kvs => 1 + jsizeO kvs
  | _ => 1

def jsizeL : List Json → Nat
  | [] => 0
  | x :: xs => 1 + jsize x + jsizeL xs

def jsizeO : List (String × Json) → Nat
  | [] => 0
  | (_, v) :: kvs => 1 + jsize v + jsizeO kvs

end

mutual

/-- `json.dumps(value, separators=(isep, ksep))` in its single-line form:
the same grammar as the default dump, but with the item and key separators
given explicitly. -/
def encSep (isep ksep : List Char) : Json → List Char
  | Json.arr [] => [lbChar, rbChar]
  | Json.arr (x :: xs) =>
      lbChar :: (encSep isep ksep x ++ encSepArrRest isep ksep xs) ++ [rbChar]
  | Json.obj [] => [obChar, cbChar]
  | Json.obj ((k, v) :: kvs) =>
      obChar :: (encStr k ++ ksep ++ encSep isep ksep v ++ encSepObjRest isep ksep kvs) ++ [cbChar]
  | j => encJson j

/-- Remaining array elements under explicit separators. -/
def encSepArrRest (isep ksep : List Char) : List Json → List Char
  | [] => []
  | x :: xs => isep ++ encSep isep ksep x ++ encSepArrRest isep ksep xs

/-- Remaining object members under explicit separators. -/
def encSepObjRest (isep ksep : List Char) : List (String × Json) → List Char
  | [] => []
  | (k, v) :: kvs =>
      isep ++ encStr k ++ ksep ++ encSep isep ksep v ++ encSepObjRest isep ksep kvs

end

/-- Modelled from the spec: "the minimal compact form" — the same JSON text
with single-character separators and no whitespace outside string literals. -/
def encMin (j : Json) : List Char := encSep [','] [':'] j

/-- The file contents produced by the fit-write loop, as a map from path to
content (later entries shadow earlier ones, matching overwrite order). -/
def fitsMap (env : Env) (outDir : String) (pretty : Bool) :
    List (String × Option PyValue) → String → Option String
  | [], _ => none
  | (_, none) :: rest, q => fitsMap env outDir pretty rest q
  | (fname, some d) :: rest, q =>
    match fitsMap env outDir pretty rest q with
    | some c => some c
    | none =>
      if writeOk env d outDir fname pretty = true ∧ q = outDir ++ "/" ++ fname then
        json_dumps pretty d
      else none

/-- The file contents the whole write phase produces at a path: the fit
loop's files shadow the earlier `profile.json` write. -/
def runMap (env : Env) (outDir : String) (pretty : Bool) (pv : PyValue) (fm : Namespace)
    (q : String) : Option String :=
  if writeOk env pv outDir "profile.json" pretty then
    match fitsMap env outDir pretty (fitEntries (extract_fit_objects fm)) q with
    | some c => some c
    | none => if q = outDir ++ "/" ++ "profile.json" then json_dumps pretty pv else none
  else none

/-- Modelled from the spec: the fit-derived output files among the five
fixed names whose corresponding source name exists on the fit module. -/
def specFitFiles (fm : Namespace) (outDir : String) : List String :=
  (if (fm "BASE_TYPE").isSome then [outDir ++ "/" ++ "base_type.json"] else []) ++
  (if (fm "FIELD_TYPE_TO_BASE_TYPE").isSome then
    [outDir ++ "/" ++ "field_type_to_base_type.json"] else []) ++
  (if (fm "BASE_TYPE_DEFINITIONS").isSome then
    [outDir ++ "/" ++ "base_type_definitions.json"] else []) ++
  (if (fm "NUMERIC_FIELD_TYPES").isSome then
    [outDir ++ "/" ++ "numeric_field_types.json"] else [])

/-- Modelled from the spec: the subset of the five fixed output files whose
corresponding source name exists (`profile.json` plus one per present fit
name). -/
def specExpectedFiles (fm : Namespace) (outDir : String) : List String :=
  (outDir ++ "/" ++ "profile.json") :: specFitFiles fm outDir

/-- Does the name bind a value other than `None`?  (`PyValue.ser Json.null`
is the embedding of the Python object `None`.) -/
def notNoneVal : Option PyValue → Bool
  | none => false
  | some (PyValue.ser Json.null) => false
  | some _ => true

/-- Modelled from the amended spec sentence: the fit-derived output files
among the four fixed names whose corresponding source name exists on the fit
module with a non-`None` value. -/
def specFitFilesNN (fm : Namespace) (outDir : String) : List String :=
  (if notNoneVal (fm "BASE_TYPE") then [outDir ++ "/" ++ "base_type.json"] else []) ++
  (if notNoneVal (fm "FIELD_TYPE_TO_BASE_TYPE") then
    [outDir ++ "/" ++ "field_type_to_base_type.json"] else []) ++
  (if notNoneVal (fm "BASE_TYPE_DEFINITIONS") then
    [outDir ++ "/" ++ "base_type_definitions.json"] else []) ++
  (if notNoneVal (fm "NUMERIC_FIELD_TYPES") then
    [outDir ++ "/" ++ "numeric_field_types.json"] else [])

/-- Modelled from the amended spec sentence: `profile.json` plus the fit
files whose corresponding source name exists with a non-`None` value. -/
def specExpectedFilesNN (fm : Namespace) (outDir : String) : List String :=
  (outDir ++ "/" ++ "profile.json") :: specFitFilesNN fm outDir

/-- A profile namespace exposing `Profile = {"a": 1}`. -/
def nsProfile : Namespace := fun n =>
  if n = "Profile" then some (PyValue.ser (Json.obj [("a", Json.num 1)])) else none

/-- A fit namespace exposing only `BASE_TYPE = {"enum": 0}`. -/
def nsFitBase : Namespace := fun n =>
  if n = "BASE_TYPE" then some (PyValue.ser (Json.obj [("enum", Json.num 0)])) else none

/-- A healthy environment: the SDK directory exists with loadable
`profile.py` and `fit.py`, and no filesystem failures. -/
def envGood : Env :=
  { path := "sdk", pathExists := true, isDir := true,
    mods := fun n =>
      if n = "profile" then ⟨true, true, Except.ok nsProfile⟩
      else if n = "fit" then ⟨true, true, Except.ok nsFitBase⟩
      else ⟨false, true, Except.ok (fun _ => none)⟩,
    writeFails := fun _ => false, mkdirFails := fun _ => false }

/-- `envGood` but with `open`/`write` failing for `out/profile.json`. -/
def envProfileWriteFail : Env :=
  { envGood with writeFails := fun q => q == "out/profile.json" }

/-- `envGood` but with `open`/`write` failing for `out/base_type.json`. -/
def envFitWriteFail : Env :=
  { envGood with writeFails := fun q => q == "out/base_type.json" }

/-- A fit namespace with `BASE_TYPE = {"enum": 0}` present,
`FIELD_TYPE_TO_BASE_TYPE = None` present, and the other two names absent. -/
def nsFitNull : Namespace := fun n =>
  if n = "BASE_TYPE" then some (PyValue.ser (Json.obj [("enum", Json.num 0)]))
  else if n = "FIELD_TYPE_TO_BASE_TYPE" then some (PyValue.ser Json.null)
  else none

/-- `envGood` but whose fit module is `nsFitNull` (one name bound to
`None`). -/
def envFitNull : Env :=
  { envGood with
    mods := fun n =>
      if n = "profile" then ⟨true, true, Except.ok nsProfile⟩
      else if n = "fit" then ⟨true, true, Except.ok nsFitNull⟩
      else ⟨false, true, Except.ok (fun _ => none)⟩ }

/-- `envGood` but with no `fit.py` in the directory. -/
def envNoFit : Env :=
  { envGood with
    mods := fun n =>
      if n = "profile" then ⟨true, true, Except.ok nsProfile⟩
      else ⟨false, true, Except.ok (fun _ => none)⟩ }

/-- `envGood` but `profile.py` raises at import (for example a syntax
error). -/
def envProfileRaises : Env :=
  { envGood with
    mods := fun n =>
      if n = "profile" then ⟨true, true, Except.error "SyntaxError: invalid syntax"⟩
      else if n = "fit" then ⟨true, true, Except.ok nsFitBase⟩
      else ⟨false, true, Except.ok (fun _ => none)⟩ }

/-- The empty filesystem. -/
def fs0 : FS := ⟨[], []⟩

/-- A scalar value is outside the surrogate range and below 0x110000. -/
theorem char_toNat_ranges (c : Char) :
    c.toNat < 55296 ∨ (57343 < c.toNat ∧ c.toNat < 1114112) := by
  have h := c.valid
  have e : c.toNat = c.val.toNat := rfl
  rcases h with h | h
  · left; rw [e]; exact_mod_cast h
  · rcases h with ⟨h1, h2⟩
    right
    have h1' : (57343 : UInt32).toNat < c.val.toNat := h1
    have h2' : c.val.toNat < (1114112 : UInt32).toNat := h2
    constructor <;> omega

/-- `hexVal` inverts `hexDigitChar` on hex digit values. -/
theorem hexVal_hexDigitChar : ∀ d : Nat, d < 16 → hexVal (hexDigitChar d) = some d := by
  decide

/-- `hexDigitChar` on digit values yields the decimal digit characters. -/
theorem hexDigitChar_digit : ∀ d : Nat, d < 10 →
    (hexDigitChar d).isDigit = true ∧ (hexDigitChar d).toNat = 48 + d := by
  decide

theorem readHex4_hex4 (n : Nat) (hn : n < 65536) (rest : List Char) :
    readHex4 (hex4 n ++ rest) = some (n, rest) := by
  have e1 := hexVal_hexDigitChar (n / 4096 % 16) (by omega)
  have e2 := hexVal_hexDigitChar (n / 256 % 16) (by omega)
  have e3 := hexVal_hexDigitChar (n / 16 % 16) (by omega)
  have e4 := hexVal_hexDigitChar (n % 16) (by omega)
  have harith : 4096 * (n / 4096 % 16) + 256 * (n / 256 % 16) + 16 * (n / 16 % 16) + n % 16 = n := by
    omega
  simp only [hex4, List.cons_append, List.nil_append, readHex4, e1, e2, e3, e4, harith]

theorem decodeUni_bmp (n : Nat) (hn : n < 65536) (hs : n < 55296 ∨ 57344 ≤ n)
    (rest : List Char) : decodeUni (hex4 n ++ rest) = some (Char.ofNat n, rest) := by
  rw [decodeUni, readHex4_hex4 n hn rest]
  dsimp only
  simp only [if_pos hs]

theorem decodeUni_astral (n : Nat) (h1 : 65536 ≤ n) (h2 : n < 1114112) (rest : List Char) :
    decodeUni (hex4 (55296 + (n - 65536) / 1024) ++
      (bsChar :: 'u' :: (hex4 (56320 + (n - 65536) % 1024) ++ rest))) =
    some (Char.ofNat n, rest) := by
  rw [decodeUni, readHex4_hex4 (55296 + (n - 65536) / 1024) (by omega)]
  dsimp only
  rw [if_neg (by omega), if_pos (by omega : 55296 + (n - 65536) / 1024 < 56320)]
  rw [if_pos (by exact ⟨rfl, rfl⟩ : bsChar = bsChar ∧ 'u' = 'u')]
  rw [readHex4_hex4 (56320 + (n - 65536) % 1024) (by omega)]
  dsimp only
  rw [if_pos (by omega : 56320 ≤ 56320 + (n - 65536) % 1024 ∧ 56320 + (n - 65536) % 1024 < 57344)]
  have : 65536 + (55296 + (n - 65536) / 1024 - 55296) * 1024 + (56320 + (n - 65536) % 1024 - 56320) = n := by
    omega
  rw [this]

theorem decodeEsc_u (cs : List Char) : decodeEsc ('u' :: cs) = decodeUni cs := by
  simp +decide [decodeEsc]

theorem escChar_spec (c : Char) :
    (escChar c = [c] ∧ ¬(c = qChar) ∧ ¬(c = bsChar) ∧ ¬(c.toNat < 32)) ∨
    (∃ t, escChar c = bsChar :: t ∧ ∀ rest, decodeEsc (t ++ rest) = some (c, rest)) := by
  by_cases hq : c = qChar
  · subst hq
    exact Or.inr ⟨[qChar], by decide, fun rest => by simp +decide [decodeEsc]⟩
  · by_cases hbs : c = bsChar
    · subst hbs
      exact Or.inr ⟨[bsChar], by decide, fun rest => by simp +decide [decodeEsc]⟩
    · by_cases h8 : c = Char.ofNat 8
      · subst h8
        exact Or.inr ⟨['b'], by decide, fun rest => by simp +decide [decodeEsc]⟩
      · by_cases h12 : c = Char.ofNat 12
        · subst h12
          exact Or.inr ⟨['f'], by decide, fun rest => by simp +decide [decodeEsc]⟩
        · by_cases hnl : c = nlChar
          · subst hnl
            exact Or.inr ⟨['n'], by decide, fun rest => by simp +decide [decodeEsc]⟩
          · by_cases h13 : c = Char.ofNat 13
            · subst h13
              exact Or.inr ⟨['r'], by decide, fun rest => by simp +decide [decodeEsc]⟩
            · by_cases h9 : c = Char.ofNat 9
              · subst h9
                exact Or.inr ⟨['t'], by decide, fun rest => by simp +decide [decodeEsc]⟩
              · by_cases h32 : c.toNat < 32
                · refine Or.inr ⟨'u' :: hex4 c.toNat, ?_, fun rest => ?_⟩
                  · simp [escChar, hq, hbs, h8, h12, hnl, h13, h9, h32]
                  · rw [List.cons_append, decodeEsc_u, decodeUni_bmp c.toNat (by omega) (by omega)]
                    rw [Char.ofNat_toNat]
                · by_cases h127 : c.toNat < 127
                  · refine Or.inl ⟨?_, hq, hbs, h32⟩
                    simp [escChar, hq, hbs, h8, h12, hnl, h13, h9, h32, h127]
                  · by_cases h65536 : c.toNat < 65536
                    · refine Or.inr ⟨'u' :: hex4 c.toNat, ?_, fun rest => ?_⟩
                      · simp [escChar, hq, hbs, h8, h12, hnl, h13, h9, h32, h127, h65536]
                      · have hr := char_toNat_ranges c
                        rw [List.cons_append, decodeEsc_u,
                          decodeUni_bmp c.toNat (by omega) (by omega)]
                        rw [Char.ofNat_toNat]
                    · refine Or.inr ⟨'u' :: hex4 (55296 + (c.toNat - 65536) / 1024) ++
                        bsChar :: 'u' :: hex4 (56320 + (c.toNat - 65536) % 1024), ?_, fun rest => ?_⟩
                      · simp [escChar, hq, hbs, h8, h12, hnl, h13, h9, h32, h127, h65536]
                      · have hr := char_toNat_ranges c
                        simp only [List.cons_append, List.append_assoc]
                        rw [decodeEsc_u, decodeUni_astral c.toNat (by omega) (by omega)]
                        rw [Char.ofNat_toNat]

theorem parseStrBodyF_esc (s : List Char) : ∀ (f : Nat) (rest : List Char), s.length < f →
    parseStrBodyF f (s.flatMap escChar ++ qChar :: rest) = some (s, rest) := by
  induction s with
  | nil =>
    intro f rest h
    obtain ⟨f', rfl⟩ : ∃ f', f = f' + 1 := ⟨f - 1, by omega⟩
    simp +decide [parseStrBodyF]
  | cons c s ih =>
    intro f rest h
    obtain ⟨f', rfl⟩ : ∃ f', f = f' + 1 := ⟨f - 1, by omega⟩
    rw [List.flatMap_cons, List.append_assoc]
    rcases escChar_spec c with ⟨hpl, hq, hbs, h32⟩ | ⟨t, ht, hdec⟩
    · rw [hpl, List.cons_append, List.nil_append]
      simp only [parseStrBodyF]
      rw [if_neg hq, if_neg hbs, if_neg h32]
      rw [ih f' rest (by simpa using Nat.lt_of_succ_lt_succ h)]
      rfl
    · rw [ht, List.cons_append]
      simp only [parseStrBodyF]
      rw [if_neg (by decide : ¬(bsChar = qChar)), if_pos (show True from trivial)]
      rw [hdec]
      dsimp only
      rw [ih f' rest (by simpa using Nat.lt_of_succ_lt_succ h)]
      rfl

theorem escChar_length_pos (c : Char) : 1 ≤ (escChar c).length := by
  rcases escChar_spec c with ⟨hpl, _, _, _⟩ | ⟨t, ht, _⟩
  · rw [hpl]; simp
  · rw [ht]; simp

theorem parseStrBody_esc (s : List Char) (rest : List Char) :
    parseStrBody (s.flatMap escChar ++ qChar :: rest) = some (s, rest) := by
  apply parseStrBodyF_esc
  have : s.length ≤ (s.flatMap escChar).length := by
    induction s with
    | nil => simp
    | cons c s ih =>
      rw [List.flatMap_cons, List.length_append, List.length_cons]
      have := escChar_length_pos c
      omega
  simp only [List.length_append, List.length_cons]
  omega

theorem natDigitsF_congr : ∀ (n f g : Nat), n < f → n < g →
    natDigitsF f n = natDigitsF g n := by
  intro n
  induction n using Nat.strong_induction_on with
  | _ n ih =>
    intro f g hf hg
    obtain ⟨f1, rfl⟩ : ∃ f1, f = f1 + 1 := ⟨f - 1, by omega⟩
    obtain ⟨g1, rfl⟩ : ∃ g1, g = g1 + 1 := ⟨g - 1, by omega⟩
    by_cases h : n < 10
    · rw [natDigitsF, natDigitsF, if_pos h, if_pos h]
    · rw [natDigitsF, natDigitsF, if_neg h, if_neg h]
      rw [ih (n / 10) (Nat.div_lt_self (by omega) (by omega)) f1 g1 (by omega) (by omega)]

theorem natDigits_unfold (n : Nat) : natDigits n =
    if n < 10 then [hexDigitChar n]
    else natDigits (n / 10) ++ [hexDigitChar (n % 10)] := by
  by_cases h : n < 10
  · rw [natDigits, natDigitsF, if_pos h, if_pos h]
  · rw [natDigits, natDigitsF, if_neg h, if_neg h, natDigits]
    rw [natDigitsF_congr (n / 10) n (n / 10 + 1) (by omega) (by omega)]

theorem natDigits_head (n : Nat) : ∃ d r, natDigits n = hexDigitChar d :: r ∧ d < 10 := by
  induction n using Nat.strong_induction_on with
  | _ n ih =>
    by_cases h : n < 10
    · exact ⟨n, [], by rw [natDigits_unfold, if_pos h], h⟩
    · obtain ⟨d, r, hd, hlt⟩ := ih (n / 10) (Nat.div_lt_self (by omega) (by omega))
      exact ⟨d, r ++ [hexDigitChar (n % 10)], by rw [natDigits_unfold, if_neg h, hd]; simp, hlt⟩

theorem parseNatAux_natDigits (n : Nat) : ∀ (acc : Nat) (rest : List Char),
    parseNatAux acc (natDigits n ++ rest) =
      parseNatAux (acc * 10 ^ (natDigits n).length + n) rest := by
  induction n using Nat.strong_induction_on with
  | _ n ih =>
    intro acc rest
    by_cases h : n < 10
    · rw [natDigits_unfold, if_pos h]
      obtain ⟨hdig, htn⟩ := hexDigitChar_digit n h
      simp [parseNatAux, hdig, htn]
      ring_nf
    · rw [natDigits_unfold, if_neg h]
      rw [List.append_assoc, ih (n / 10) (Nat.div_lt_self (by omega) (by omega))]
      obtain ⟨hdig, htn⟩ := hexDigitChar_digit (n % 10) (by omega)
      simp only [List.cons_append, List.nil_append, parseNatAux, hdig, if_pos, htn,
        List.length_append, List.length_cons, List.length_nil]
      have : 10 * ((natDigits (n / 10)).length) = (natDigits (n / 10)).length * 10 := by ring
      rw [pow_succ]
      congr 1
      have hmod : 48 + n % 10 - 48 = n % 10 := by omega
      rw [hmod]
      have hdm : n / 10 * 10 + n % 10 = n := by omega
      ring_nf
      omega

theorem parseNatAux_noDig (a : Nat) (rest : List Char) (h : noDig rest = true) :
    parseNatAux a rest = (a, rest) := by
  cases rest with
  | nil => rfl
  | cons c cs =>
    simp only [noDig, Bool.not_eq_true'] at h
    simp [parseNatAux, h]

theorem parseNatAux_digits (n : Nat) (rest : List Char) (h : noDig rest = true) :
    parseNatAux 0 (natDigits n ++ rest) = (n, rest) := by
  rw [parseNatAux_natDigits, parseNatAux_noDig _ _ h]
  simp

theorem digit_head_facts : ∀ d : Nat, d < 10 →
    isWsChar (hexDigitChar d) = false ∧ ¬(hexDigitChar d = rbChar) ∧
    ¬(hexDigitChar d = cbChar) := by
  decide

theorem headOk_intro (c : Char) (l cs : List Char) (he : l = c :: cs)
    (hp : isWsChar c = false ∧ ¬(c = rbChar) ∧ ¬(c = cbChar)) :
    ∃ c0 cs0, l = c0 :: cs0 ∧ isWsChar c0 = false ∧ ¬(c0 = rbChar) ∧ ¬(c0 = cbChar) :=
  ⟨c, cs, he, hp.1, hp.2.1, hp.2.2⟩

theorem encJson_head (j : Json) : ∃ c cs, encJson j = c :: cs ∧ isWsChar c = false ∧
    ¬(c = rbChar) ∧ ¬(c = cbChar) := by
  cases j with
  | null => exact headOk_intro 'n' _ _ rfl (by decide)
  | bool b =>
    cases b with
    | true => exact headOk_intro 't' _ _ rfl (by decide)
    | false => exact headOk_intro 'f' _ _ rfl (by decide)
  | num n =>
    cases n with
    | ofNat m =>
      obtain ⟨d, r, hd, hlt⟩ := natDigits_head m
      obtain ⟨h1, h2, h3⟩ := digit_head_facts d hlt
      exact headOk_intro (hexDigitChar d) _ r (by simp [encJson, intChars, hd]) ⟨h1, h2, h3⟩
    | negSucc m => exact headOk_intro '-' _ _ rfl (by decide)
  | str s => exact headOk_intro qChar _ _ rfl (by decide)
  | arr xs =>
    cases xs with
    | nil => exact headOk_intro lbChar _ _ rfl (by decide)
    | cons x xs => exact headOk_intro lbChar _ _ rfl (by decide)
  | obj kvs =>
    cases kvs with
    | nil => exact headOk_intro obChar _ _ rfl (by decide)
    | cons kv kvs =>
      obtain ⟨k, v⟩ := kv
      exact headOk_intro obChar _ _ rfl (by decide)

theorem encP_head (lvl : Nat) (j : Json) : ∃ c cs, encP lvl j = c :: cs ∧ isWsChar c = false ∧
    ¬(c = rbChar) ∧ ¬(c = cbChar) := by
  cases j with
  | null => exact headOk_intro 'n' _ _ rfl (by decide)
  | bool b =>
    cases b with
    | true => exact headOk_intro 't' _ _ rfl (by decide)
    | false => exact headOk_intro 'f' _ _ rfl (by decide)
  | num n =>
    cases n with
    | ofNat m =>
      obtain ⟨d, r, hd, hlt⟩ := natDigits_head m
      obtain ⟨h1, h2, h3⟩ := digit_head_facts d hlt
      exact headOk_intro (hexDigitChar d) _ r (by simp [encP, encJson, intChars, hd]) ⟨h1, h2, h3⟩
    | negSucc m => exact headOk_intro '-' _ _ rfl (by decide)
  | str s => exact headOk_intro qChar _ _ rfl (by decide)
  | arr xs =>
    cases xs with
    | nil => exact headOk_intro lbChar _ _ rfl (by decide)
    | cons x xs => exact headOk_intro lbChar _ _ rfl (by decide)
  | obj kvs =>
    cases kvs with
    | nil => exact headOk_intro obChar _ _ rfl (by decide)
    | cons kv kvs =>
      obtain ⟨k, v⟩ := kv
      exact headOk_intro obChar _ _ rfl (by decide)

theorem skipWs_cons_not (c : Char) (cs : List Char) (h : isWsChar c = false) :
    skipWs (c :: cs) = c :: cs := by
  simp [skipWs, h]

theorem skipWs_all_ws (pre : List Char) (h : ∀ c ∈ pre, isWsChar c = true) :
    ∀ r, skipWs (pre ++ r) = skipWs r := by
  induction pre with
  | nil => intro r; rfl
  | cons c cs ih =>
    intro r
    rw [List.cons_append, skipWs, if_pos (h c (by simp))]
    exact ih (fun c hc => h c (by simp [hc])) r

theorem skipWs_nlInd (lvl : Nat) (r : List Char) : skipWs (nlInd lvl ++ r) = skipWs r := by
  apply skipWs_all_ws
  intro c hc
  simp only [nlInd, List.mem_cons, List.mem_replicate] at hc
  rcases hc with rfl | ⟨_, rfl⟩
  · decide
  · decide

theorem pv_digit (f : Nat) (c : Char) (r : List Char) (h1 : ¬(c = 'n')) (h2 : ¬(c = 't'))
    (h3 : ¬(c = 'f')) (h4 : ¬(c = qChar)) (h5 : ¬(c = '-')) (h6 : c.isDigit = true) :
    parseVal (f + 1) (c :: r) =
      some (Json.num ((parseNatAux (c.toNat - 48) r).1 : Int), (parseNatAux (c.toNat - 48) r).2) := by
  simp only [parseVal]
  rw [if_neg h1, if_neg h2, if_neg h3, if_neg h4, if_neg h5, if_pos h6]

theorem jsize_pos (j : Json) : 1 ≤ jsize j := by
  cases j <;> simp [jsize]

theorem string_mk_data (s : String) : String.mk s.data = s := rfl

theorem digit_full_facts : ∀ d : Nat, d < 10 →
    ¬(hexDigitChar d = 'n') ∧ ¬(hexDigitChar d = 't') ∧ ¬(hexDigitChar d = 'f') ∧
    ¬(hexDigitChar d = qChar) ∧ ¬(hexDigitChar d = '-') := by
  decide

theorem noDig_encArrRest (xs : List Json) (rest : List Char) :
    noDig (encArrRest xs ++ rbChar :: rest) = true := by
  cases xs with
  | nil => rfl
  | cons x xs => rfl

theorem noDig_encObjRest (kvs : List (String × Json)) (rest : List Char) :
    noDig (encObjRest kvs ++ cbChar :: rest) = true := by
  cases kvs with
  | nil => rfl
  | cons kv kvs => obtain ⟨k, v⟩ := kv; rfl

theorem skipWs_encArrRest (xs : List Json) (rest : List Char) :
    skipWs (encArrRest xs ++ rbChar :: rest) = encArrRest xs ++ rbChar :: rest := by
  cases xs with
  | nil =>
    simp only [encArrRest, List.nil_append]
    exact skipWs_cons_not _ _ (by decide)
  | cons x xs =>
    simp only [encArrRest, List.cons_append]
    exact skipWs_cons_not _ _ (by decide)

theorem skipWs_encObjRest (kvs : List (String × Json)) (rest : List Char) :
    skipWs (encObjRest kvs ++ cbChar :: rest) = encObjRest kvs ++ cbChar :: rest := by
  cases kvs with
  | nil =>
    simp only [encObjRest, List.nil_append]
    exact skipWs_cons_not _ _ (by decide)
  | cons kv kvs =>
    obtain ⟨k, v⟩ := kv
    simp only [encObjRest, List.cons_append]
    exact skipWs_cons_not _ _ (by decide)

theorem pv_minus (f : Nat) (c2 : Char) (r2 : List Char) (h : c2.isDigit = true) :
    parseVal (f + 1) ('-' :: c2 :: r2) =
      some (Json.num (-((parseNatAux (c2.toNat - 48) r2).1 : Int)),
        (parseNatAux (c2.toNat - 48) r2).2) := by
  simp only [parseVal]
  rw [if_neg (by decide), if_neg (by decide), if_neg (by decide), if_neg (by decide),
    if_pos (show True from trivial), if_pos h]

theorem parseNatAux_first (d : Nat) (hd : d < 10) (r : List Char) :
    parseNatAux ((hexDigitChar d).toNat - 48) r = parseNatAux 0 (hexDigitChar d :: r) := by
  obtain ⟨hdig, htn⟩ := hexDigitChar_digit d hd
  simp [parseNatAux, hdig, htn]

theorem pv_strStep (f : Nat) (M : List Char) : parseVal (f + 1) (qChar :: M) =
    (parseStrBody M).map (fun p => (Json.str (String.mk p.1), p.2)) := rfl

theorem pv_arrStep (f : Nat) (M : List Char) : parseVal (f + 1) (lbChar :: M) =
    (match skipWs M with
     | [] => none
     | c2 :: r2 =>
       if c2 = rbChar then some (Json.arr [], r2)
       else
         match parseVal f (c2 :: r2) with
         | none => none
         | some (x, r3) =>
           match parseArrRest f (skipWs r3) with
           | none => none
           | some (xs, r4) => some (Json.arr (x :: xs), r4)) := rfl

theorem pv_objStep (f : Nat) (M : List Char) : parseVal (f + 1) (obChar :: M) =
    (match skipWs M with
     | [] => none
     | c2 :: r2 =>
       if c2 = cbChar then some (Json.obj [], r2)
       else if c2 = qChar then
         match parseStrBody r2 with
         | none => none
         | some (k, r3) =>
           match skipWs r3 with
           | ':' :: r4 =>
             match parseVal f (skipWs r4) with
             | none => none
             | some (v, r5) =>
               match parseObjRest f (skipWs r5) with
               | none => none
               | some (kvs, r6) => some (Json.obj ((String.mk k, v) :: kvs), r6)
           | _ => none
       else none) := rfl

theorem par_commaStep (f : Nat) (r : List Char) : parseArrRest (f + 1) (',' :: r) =
    (match parseVal f (skipWs r) with
     | none => none
     | some (x, r2) =>
       match parseArrRest f (skipWs r2) with
       | none => none
       | some (xs, r3) => some (x :: xs, r3)) := rfl

theorem pob_commaStep (f : Nat) (r : List Char) : parseObjRest (f + 1) (',' :: r) =
    (match skipWs r with
     | c2 :: r2 =>
       if c2 = qChar then
         match parseStrBody r2 with
         | none => none
         | some (k, r3) =>
           match skipWs r3 with
           | ':' :: r4 =>
             match parseVal f (skipWs r4) with
             | none => none
             | some (v, r5) =>
               match parseObjRest f (skipWs r5) with
               | none => none
               | some (kvs, r6) => some ((String.mk k, v) :: kvs, r6)
           | _ => none
       else none
     | [] => none) := rfl

theorem parse_enc_all (f : Nat) :
    (∀ (j : Json) (rest : List Char), jsize j ≤ f → noDig rest = true →
      parseVal f (encJson j ++ rest) = some (j, rest)) ∧
    (∀ (xs : List Json) (rest : List Char), jsizeL xs + 1 ≤ f →
      parseArrRest f (encArrRest xs ++ rbChar :: rest) = some (xs, rest)) ∧
    (∀ (kvs : List (String × Json)) (rest : List Char), jsizeO kvs + 1 ≤ f →
      parseObjRest f (encObjRest kvs ++ cbChar :: rest) = some (kvs, rest)) := by
  induction f with
  | zero =>
    exact ⟨fun j rest hs _ => absurd hs (by have := jsize_pos j; omega),
      fun xs rest hs => absurd hs (by omega),
      fun kvs rest hs => absurd hs (by omega)⟩
  | succ f ih =>
    obtain ⟨ihv, iha, iho⟩ := ih
    refine ⟨?_, ?_, ?_⟩
    · intro j rest hs hrest
      cases j with
      | null => rfl
      | bool b => cases b with | true => rfl | false => rfl
      | num n =>
        cases n with
        | ofNat m =>
          obtain ⟨d, r', hd, hdlt⟩ := natDigits_head m
          obtain ⟨hn1, hn2, hn3, hn4, hn5⟩ := digit_full_facts d hdlt
          obtain ⟨hdig, _⟩ := hexDigitChar_digit d hdlt
          show parseVal (f + 1) (natDigits m ++ rest) = _
          rw [hd, List.cons_append, pv_digit f _ _ hn1 hn2 hn3 hn4 hn5 hdig,
            parseNatAux_first d hdlt, ← List.cons_append, ← hd,
            parseNatAux_digits m rest hrest]
          rfl
        | negSucc m =>
          obtain ⟨d, r', hd, hdlt⟩ := natDigits_head (m + 1)
          obtain ⟨hdig, _⟩ := hexDigitChar_digit d hdlt
          show parseVal (f + 1) ('-' :: natDigits (m + 1) ++ rest) = _
          rw [List.cons_append, hd, List.cons_append, pv_minus f _ _ hdig,
            parseNatAux_first d hdlt, ← List.cons_append, ← hd,
            parseNatAux_digits (m + 1) rest hrest]
          have : -(((m + 1 : Nat) : Int)) = Int.negSucc m := by
            rw [Int.negSucc_eq]
            push_cast
            ring
          rw [this]
      | str s =>
        have he : encStr s ++ rest = qChar :: (s.data.flatMap escChar ++ (qChar :: rest)) := by
          simp [encStr]
        show parseVal (f + 1) (encStr s ++ rest) = _
        rw [he, pv_strStep, parseStrBody_esc]
        simp [string_mk_data]
      | arr xs =>
        cases xs with
        | nil => rfl
        | cons x xs =>
          obtain ⟨c2, cs2, hx, hws, hrb, _⟩ := encJson_head x
          have hsx : jsize x ≤ f := by simp [jsize, jsizeL] at hs; omega
          have hsxs : jsizeL xs + 1 ≤ f := by simp [jsize, jsizeL] at hs; omega
          have he : encJson (Json.arr (x :: xs)) ++ rest =
              lbChar :: (encJson x ++ (encArrRest xs ++ rbChar :: rest)) := by
            simp [encJson]
          rw [he, pv_arrStep, hx, List.cons_append, skipWs_cons_not _ _ hws]
          dsimp only
          rw [if_neg hrb, ← List.cons_append, ← hx,
            ihv x _ hsx (noDig_encArrRest xs rest)]
          dsimp only
          rw [skipWs_encArrRest, iha xs rest hsxs]
      | obj kvs =>
        cases kvs with
        | nil => rfl
        | cons kv kvs =>
          obtain ⟨k, v⟩ := kv
          obtain ⟨c3, cs3, hv, hws, _, _⟩ := encJson_head v
          have hsv : jsize v ≤ f := by simp [jsize, jsizeO] at hs; omega
          have hskvs : jsizeO kvs + 1 ≤ f := by simp [jsize, jsizeO] at hs; omega
          have he : encJson (Json.obj ((k, v) :: kvs)) ++ rest =
              obChar :: (qChar :: (k.data.flatMap escChar ++ (qChar ::
                (':' :: ' ' :: (encJson v ++ (encObjRest kvs ++ cbChar :: rest)))))) := by
            simp [encJson, encStr]
          rw [he, pv_objStep, skipWs_cons_not _ _ (by decide)]
          dsimp only
          rw [if_neg (by decide), if_pos rfl, parseStrBody_esc]
          dsimp only
          rw [skipWs_cons_not _ _ (by decide)]
          show (match parseVal f (skipWs (' ' :: (encJson v ++ (encObjRest kvs ++ cbChar :: rest)))) with
            | none => none
            | some (v2, r5) =>
              match parseObjRest f (skipWs r5) with
              | none => none
              | some (kvs2, r6) => some (Json.obj ((String.mk k.data, v2) :: kvs2), r6)) =
            some (Json.obj ((k, v) :: kvs), rest)
          rw [show skipWs (' ' :: (encJson v ++ (encObjRest kvs ++ cbChar :: rest))) =
            skipWs (encJson v ++ (encObjRest kvs ++ cbChar :: rest)) from by
              rw [skipWs, if_pos (by decide)]]
          rw [hv, List.cons_append, skipWs_cons_not _ _ hws, ← List.cons_append, ← hv,
            ihv v _ hsv (noDig_encObjRest kvs rest)]
          dsimp only
          rw [skipWs_encObjRest, iho kvs rest hskvs]
    · intro xs rest hs
      cases xs with
      | nil => rfl
      | cons y ys =>
        obtain ⟨c2, cs2, hy, hws, _, _⟩ := encJson_head y
        have hsy : jsize y ≤ f := by simp [jsizeL] at hs; omega
        have hsys : jsizeL ys + 1 ≤ f := by simp [jsizeL] at hs; omega
        have he : encArrRest (y :: ys) ++ rbChar :: rest =
            ',' :: (' ' :: (encJson y ++ (encArrRest ys ++ rbChar :: rest))) := by
          simp [encArrRest]
        rw [he, par_commaStep]
        rw [show skipWs (' ' :: (encJson y ++ (encArrRest ys ++ rbChar :: rest))) =
          skipWs (encJson y ++ (encArrRest ys ++ rbChar :: rest)) from by
            rw [skipWs, if_pos (by decide)]]
        rw [hy, List.cons_append, skipWs_cons_not _ _ hws, ← List.cons_append, ← hy,
          ihv y _ hsy (noDig_encArrRest ys rest)]
        dsimp only
        rw [skipWs_encArrRest, iha ys rest hsys]
    · intro kvs rest hs
      cases kvs with
      | nil => rfl
      | cons kv kvs =>
        obtain ⟨k, v⟩ := kv
        obtain ⟨c3, cs3, hv, hws, _, _⟩ := encJson_head v
        have hsv : jsize v ≤ f := by simp [jsizeO] at hs; omega
        have hskvs : jsizeO kvs + 1 ≤ f := by simp [jsizeO] at hs; omega
        have he : encObjRest ((k, v) :: kvs) ++ cbChar :: rest =
            ',' :: (' ' :: (qChar :: (k.data.flatMap escChar ++ (qChar ::
              (':' :: ' ' :: (encJson v ++ (encObjRest kvs ++ cbChar :: rest))))))) := by
          simp [encObjRest, encStr]
        rw [he, pob_commaStep]
        rw [show skipWs (' ' :: (qChar :: (k.data.flatMap escChar ++ (qChar ::
            (':' :: ' ' :: (encJson v ++ (encObjRest kvs ++ cbChar :: rest))))))) =
          qChar :: (k.data.flatMap escChar ++ (qChar ::
            (':' :: ' ' :: (encJson v ++ (encObjRest kvs ++ cbChar :: rest))))) from by
            rw [skipWs, if_pos (by decide), skipWs_cons_not _ _ (by decide)]]
        dsimp only
        rw [if_pos rfl, parseStrBody_esc]
        dsimp only
        rw [skipWs_cons_not _ _ (by decide)]
        show (match parseVal f (skipWs (' ' :: (encJson v ++ (encObjRest kvs ++ cbChar :: rest)))) with
          | none => none
          | some (v2, r5) =>
            match parseObjRest f (skipWs r5) with
            | none => none
            | some (kvs2, r6) => some ((String.mk k.data, v2) :: kvs2, r6)) =
          some ((k, v) :: kvs, rest)
        rw [show skipWs (' ' :: (encJson v ++ (encObjRest kvs ++ cbChar :: rest))) =
          skipWs (encJson v ++ (encObjRest kvs ++ cbChar :: rest)) from by
            rw [skipWs, if_pos (by decide)]]
        rw [hv, List.cons_append, skipWs_cons_not _ _ hws, ← List.cons_append, ← hv,
          ihv v _ hsv (noDig_encObjRest kvs rest)]
        dsimp only
        rw [skipWs_encObjRest, iho kvs rest hskvs]

theorem noDig_encPArrRest (lvl lvl2 : Nat) (xs : List Json) (rest : List Char) :
    noDig (encPArrRest lvl xs ++ (nlInd lvl2 ++ rbChar :: rest)) = true := by
  cases xs with
  | nil => rfl
  | cons x xs => rfl

theorem noDig_encPObjRest (lvl lvl2 : Nat) (kvs : List (String × Json)) (rest : List Char) :
    noDig (encPObjRest lvl kvs ++ (nlInd lvl2 ++ cbChar :: rest)) = true := by
  cases kvs with
  | nil => rfl
  | cons kv kvs => obtain ⟨k, v⟩ := kv; rfl

theorem parse_encP_all (f : Nat) :
    (∀ (lvl : Nat) (j : Json) (rest : List Char), jsize j ≤ f → noDig rest = true →
      parseVal f (encP lvl j ++ rest) = some (j, rest)) ∧
    (∀ (lvl lvl2 : Nat) (xs : List Json) (rest : List Char), jsizeL xs + 1 ≤ f →
      parseArrRest f (skipWs (encPArrRest lvl xs ++ (nlInd lvl2 ++ rbChar :: rest))) =
        some (xs, rest)) ∧
    (∀ (lvl lvl2 : Nat) (kvs : List (String × Json)) (rest : List Char), jsizeO kvs + 1 ≤ f →
      parseObjRest f (skipWs (encPObjRest lvl kvs ++ (nlInd lvl2 ++ cbChar :: rest))) =
        some (kvs, rest)) := by
  induction f with
  | zero =>
    exact ⟨fun _ j rest hs _ => absurd hs (by have := jsize_pos j; omega),
      fun _ _ xs rest hs => absurd hs (by omega),
      fun _ _ kvs rest hs => absurd hs (by omega)⟩
  | succ f ih =>
    obtain ⟨ihv, iha, iho⟩ := ih
    refine ⟨?_, ?_, ?_⟩
    · intro lvl j rest hs hrest
      cases j with
      | null => exact (parse_enc_all (f + 1)).1 Json.null rest hs hrest
      | bool b => exact (parse_enc_all (f + 1)).1 (Json.bool b) rest hs hrest
      | num n => exact (parse_enc_all (f + 1)).1 (Json.num n) rest hs hrest
      | str s => exact (parse_enc_all (f + 1)).1 (Json.str s) rest hs hrest
      | arr xs =>
        cases xs with
        | nil => exact (parse_enc_all (f + 1)).1 (Json.arr []) rest hs hrest
        | cons x xs =>
          obtain ⟨c2, cs2, hx, hws, hrb, _⟩ := encP_head (lvl + 1) x
          have hsx : jsize x ≤ f := by simp [jsize, jsizeL] at hs; omega
          have hsxs : jsizeL xs + 1 ≤ f := by simp [jsize, jsizeL] at hs; omega
          have he : encP lvl (Json.arr (x :: xs)) ++ rest =
              lbChar :: (nlInd (lvl + 1) ++ (encP (lvl + 1) x ++
                (encPArrRest (lvl + 1) xs ++ (nlInd lvl ++ rbChar :: rest)))) := by
            simp [encP]
          rw [he, pv_arrStep, skipWs_nlInd, hx, List.cons_append, skipWs_cons_not _ _ hws]
          dsimp only
          rw [if_neg hrb, ← List.cons_append, ← hx,
            ihv (lvl + 1) x _ hsx (noDig_encPArrRest (lvl + 1) lvl xs rest)]
          dsimp only
          rw [iha (lvl + 1) lvl xs rest hsxs]
      | obj kvs =>
        cases kvs with
        | nil => exact (parse_enc_all (f + 1)).1 (Json.obj []) rest hs hrest
        | cons kv kvs =>
          obtain ⟨k, v⟩ := kv
          obtain ⟨c3, cs3, hv, hws, _, _⟩ := encP_head (lvl + 1) v
          have hsv : jsize v ≤ f := by simp [jsize, jsizeO] at hs; omega
          have hskvs : jsizeO kvs + 1 ≤ f := by simp [jsize, jsizeO] at hs; omega
          have he : encP lvl (Json.obj ((k, v) :: kvs)) ++ rest =
              obChar :: (nlInd (lvl + 1) ++ (qChar :: (k.data.flatMap escChar ++ (qChar ::
                (':' :: ' ' :: (encP (lvl + 1) v ++ (encPObjRest (lvl + 1) kvs ++
                  (nlInd lvl ++ cbChar :: rest)))))))) := by
            simp [encP, encStr]
          rw [he, pv_objStep, skipWs_nlInd, skipWs_cons_not _ _ (by decide)]
          dsimp only
          rw [if_neg (by decide), if_pos rfl, parseStrBody_esc]
          dsimp only
          rw [skipWs_cons_not _ _ (by decide)]
          show (match parseVal f (skipWs (' ' :: (encP (lvl + 1) v ++ (encPObjRest (lvl + 1) kvs ++
              (nlInd lvl ++ cbChar :: rest))))) with
            | none => none
            | some (v2, r5) =>
              match parseObjRest f (skipWs r5) with
              | none => none
              | some (kvs2, r6) => some (Json.obj ((String.mk k.data, v2) :: kvs2), r6)) =
            some (Json.obj ((k, v) :: kvs), rest)
          rw [show skipWs (' ' :: (encP (lvl + 1) v ++ (encPObjRest (lvl + 1) kvs ++
              (nlInd lvl ++ cbChar :: rest)))) =
            skipWs (encP (lvl + 1) v ++ (encPObjRest (lvl + 1) kvs ++
              (nlInd lvl ++ cbChar :: rest))) from by
              rw [skipWs, if_pos (by decide)]]
          rw [hv, List.cons_append, skipWs_cons_not _ _ hws, ← List.cons_append, ← hv,
            ihv (lvl + 1) v _ hsv (noDig_encPObjRest (lvl + 1) lvl kvs rest)]
          dsimp only
          rw [iho (lvl + 1) lvl kvs rest hskvs]
    · intro lvl lvl2 xs rest hs
      cases xs with
      | nil =>
        rw [encPArrRest, List.nil_append, skipWs_nlInd,
          skipWs_cons_not _ _ (by decide)]
        rfl
      | cons y ys =>
        obtain ⟨c2, cs2, hy, hws, _, _⟩ := encP_head lvl y
        have hsy : jsize y ≤ f := by simp [jsizeL] at hs; omega
        have hsys : jsizeL ys + 1 ≤ f := by simp [jsizeL] at hs; omega
        have he : encPArrRest lvl (y :: ys) ++ (nlInd lvl2 ++ rbChar :: rest) =
            ',' :: (nlInd lvl ++ (encP lvl y ++ (encPArrRest lvl ys ++
              (nlInd lvl2 ++ rbChar :: rest)))) := by
          simp [encPArrRest]
        rw [he, skipWs_cons_not _ _ (by decide), par_commaStep, skipWs_nlInd]
        rw [hy, List.cons_append, skipWs_cons_not _ _ hws, ← List.cons_append, ← hy,
          ihv lvl y _ hsy (noDig_encPArrRest lvl lvl2 ys rest)]
        dsimp only
        rw [iha lvl lvl2 ys rest hsys]
    · intro lvl lvl2 kvs rest hs
      cases kvs with
      | nil =>
        rw [encPObjRest, List.nil_append, skipWs_nlInd,
          skipWs_cons_not _ _ (by decide)]
        rfl
      | cons kv kvs =>
        obtain ⟨k, v⟩ := kv
        obtain ⟨c3, cs3, hv, hws, _, _⟩ := encP_head lvl v
        have hsv : jsize v ≤ f := by simp [jsizeO] at hs; omega
        have hskvs : jsizeO kvs + 1 ≤ f := by simp [jsizeO] at hs; omega
        have he : encPObjRest lvl ((k, v) :: kvs) ++ (nlInd lvl2 ++ cbChar :: rest) =
            ',' :: (nlInd lvl ++ (qChar :: (k.data.flatMap escChar ++ (qChar ::
              (':' :: ' ' :: (encP lvl v ++ (encPObjRest lvl kvs ++
                (nlInd lvl2 ++ cbChar :: rest)))))))) := by
          simp [encPObjRest, encStr]
        rw [he, skipWs_cons_not _ _ (by decide), pob_commaStep, skipWs_nlInd,
          skipWs_cons_not _ _ (by decide)]
        dsimp only
        rw [if_pos rfl, parseStrBody_esc]
        dsimp only
        rw [skipWs_cons_not _ _ (by decide)]
        show (match parseVal f (skipWs (' ' :: (encP lvl v ++ (encPObjRest lvl kvs ++
            (nlInd lvl2 ++ cbChar :: rest))))) with
          | none => none
          | some (v2, r5) =>
            match parseObjRest f (skipWs r5) with
            | none => none
            | some (kvs2, r6) => some ((String.mk k.data, v2) :: kvs2, r6)) =
          some ((k, v) :: kvs, rest)
        rw [show skipWs (' ' :: (encP lvl v ++ (encPObjRest lvl kvs ++
            (nlInd lvl2 ++ cbChar :: rest)))) =
          skipWs (encP lvl v ++ (encPObjRest lvl kvs ++
            (nlInd lvl2 ++ cbChar :: rest))) from by
            rw [skipWs, if_pos (by decide)]]
        rw [hv, List.cons_append, skipWs_cons_not _ _ hws, ← List.cons_append, ← hv,
          ihv lvl v _ hsv (noDig_encPObjRest lvl lvl2 kvs rest)]
        dsimp only
        rw [iho lvl lvl2 kvs rest hskvs]

mutual

theorem jsize_le_encJson : (j : Json) → jsize j ≤ (encJson j).length
  | Json.null => by simp [jsize, encJson]
  | Json.bool true => by simp [jsize, encJson]
  | Json.bool false => by simp [jsize, encJson]
  | Json.num n => by
    have : 1 ≤ (intChars n).length := by
      cases n with
      | ofNat m =>
        obtain ⟨d, r, hd, _⟩ := natDigits_head m
        simp [intChars, hd]
      | negSucc m => simp [intChars]
    simpa [jsize, encJson] using this
  | Json.str s => by simp [jsize, encJson, encStr]
  | Json.arr [] => by simp [jsize, jsizeL, encJson]
  | Json.arr (x :: xs) => by
    have h1 := jsize_le_encJson x
    have h2 := jsizeL_le_encArrRest xs
    simp only [jsize, jsizeL, encJson, List.length_cons, List.length_append]
    omega
  | Json.obj [] => by simp [jsize, jsizeO, encJson]
  | Json.obj ((k, v) :: kvs) => by
    have h1 := jsize_le_encJson v
    have h2 := jsizeO_le_encObjRest kvs
    simp only [jsize, jsizeO, encJson, List.length_cons, List.length_append]
    omega

theorem jsizeL_le_encArrRest : (xs : List Json) → jsizeL xs ≤ (encArrRest xs).length
  | [] => by simp [jsizeL, encArrRest]
  | x :: xs => by
    have h1 := jsize_le_encJson x
    have h2 := jsizeL_le_encArrRest xs
    simp only [jsizeL, encArrRest, List.length_cons, List.length_append]
    omega

theorem jsizeO_le_encObjRest : (kvs : List (String × Json)) → jsizeO kvs ≤ (encObjRest kvs).length
  | [] => by simp [jsizeO, encObjRest]
  | (k, v) :: kvs => by
    have h1 := jsize_le_encJson v
    have h2 := jsizeO_le_encObjRest kvs
    simp only [jsizeO, encObjRest, List.length_cons, List.length_append]
    omega

end

mutual

theorem jsize_le_encP : (lvl : Nat) → (j : Json) → jsize j ≤ (encP lvl j).length
  | _, Json.null => jsize_le_encJson Json.null
  | _, Json.bool true => jsize_le_encJson (Json.bool true)
  | _, Json.bool false => jsize_le_encJson (Json.bool false)
  | _, Json.num n => jsize_le_encJson (Json.num n)
  | _, Json.str s => jsize_le_encJson (Json.str s)
  | _, Json.arr [] => jsize_le_encJson (Json.arr [])
  | lvl, Json.arr (x :: xs) => by
    have h1 := jsize_le_encP (lvl + 1) x
    have h2 := jsizeL_le_encPArrRest (lvl + 1) xs
    simp only [jsize, jsizeL, encP, List.length_cons, List.length_append]
    omega
  | _, Json.obj [] => jsize_le_encJson (Json.obj [])
  | lvl, Json.obj ((k, v) :: kvs) => by
    have h1 := jsize_le_encP (lvl + 1) v
    have h2 := jsizeO_le_encPObjRest (lvl + 1) kvs
    simp only [jsize, jsizeO, encP, List.length_cons, List.length_append]
    omega

theorem jsizeL_le_encPArrRest : (lvl : Nat) → (xs : List Json) →
    jsizeL xs ≤ (encPArrRest lvl xs).length
  | _, [] => by simp [jsizeL, encPArrRest]
  | lvl, x :: xs => by
    have h1 := jsize_le_encP lvl x
    have h2 := jsizeL_le_encPArrRest lvl xs
    simp only [jsizeL, encPArrRest, List.length_cons, List.length_append]
    omega

theorem jsizeO_le_encPObjRest : (lvl : Nat) → (kvs : List (String × Json)) →
    jsizeO kvs ≤ (encPObjRest lvl kvs).length
  | _, [] => by simp [jsizeO, encPObjRest]
  | lvl, (k, v) :: kvs => by
    have h1 := jsize_le_encP lvl v
    have h2 := jsizeO_le_encPObjRest lvl kvs
    simp only [jsizeO, encPObjRest, List.length_cons, List.length_append]
    omega

end

/-- Parsing the compact serialization of any value recovers the value. -/
theorem json_loads_encJson (j : Json) : json_loads (String.mk (encJson j)) = some j := by
  obtain ⟨c, cs, hj, hws, _, _⟩ := encJson_head j
  have hskip : skipWs (encJson j) = encJson j := by rw [hj]; exact skipWs_cons_not _ _ hws
  have hfuel : jsize j ≤ (encJson j).length + 1 := by
    have := jsize_le_encJson j
    omega
  have hparse := (parse_enc_all ((encJson j).length + 1)).1 j [] hfuel rfl
  rw [List.append_nil] at hparse
  show (match parseVal ((skipWs (encJson j)).length + 1) (skipWs (encJson j)) with
    | some (v, rest) => if skipWs rest = [] then some v else none
    | none => none) = some j
  rw [hskip, hparse]
  rfl

/-- Parsing the indented serialization of any value recovers the value. -/
theorem json_loads_encP (j : Json) : json_loads (String.mk (encP 0 j)) = some j := by
  obtain ⟨c, cs, hj, hws, _, _⟩ := encP_head 0 j
  have hskip : skipWs (encP 0 j) = encP 0 j := by rw [hj]; exact skipWs_cons_not _ _ hws
  have hfuel : jsize j ≤ (encP 0 j).length + 1 := by
    have := jsize_le_encP 0 j
    omega
  have hparse := (parse_encP_all ((encP 0 j).length + 1)).1 0 j [] hfuel rfl
  rw [List.append_nil] at hparse
  show (match parseVal ((skipWs (encP 0 j)).length + 1) (skipWs (encP 0 j)) with
    | some (v, rest) => if skipWs rest = [] then some v else none
    | none => none) = some j
  rw [hskip, hparse]
  rfl

/-- Any output `json.dumps` can produce parses back to the dumped value. -/
theorem json_loads_json_dumps (pretty : Bool) (j : Json) (s : String)
    (h : json_dumps pretty (PyValue.ser j) = some s) : json_loads s = some j := by
  cases pretty with
  | true =>
    have : s = String.mk (encP 0 j) := by
      simpa [json_dumps] using h.symm
    rw [this]
    exact json_loads_encP j
  | false =>
    have : s = String.mk (encJson j) := by
      simpa [json_dumps] using h.symm
    rw [this]
    exact json_loads_encJson j

mutual

theorem encJson_eq_encSep : (j : Json) →
    encJson j = encSep [',', ' '] [':', ' '] j
  | Json.null => rfl
  | Json.bool true => rfl
  | Json.bool false => rfl
  | Json.num n => rfl
  | Json.str s => rfl
  | Json.arr [] => rfl
  | Json.arr (x :: xs) => by
    rw [encJson, encSep, encJson_eq_encSep x, encArrRest_eq_encSepArrRest xs]
  | Json.obj [] => rfl
  | Json.obj ((k, v) :: kvs) => by
    rw [encJson, encSep, encJson_eq_encSep v, encObjRest_eq_encSepObjRest kvs]
    simp

theorem encArrRest_eq_encSepArrRest : (xs : List Json) →
    encArrRest xs = encSepArrRest [',', ' '] [':', ' '] xs
  | [] => rfl
  | x :: xs => by
    rw [encArrRest, encSepArrRest, encJson_eq_encSep x, encArrRest_eq_encSepArrRest xs]
    simp

theorem encObjRest_eq_encSepObjRest : (kvs : List (String × Json)) →
    encObjRest kvs = encSepObjRest [',', ' '] [':', ' '] kvs
  | [] => rfl
  | (k, v) :: kvs => by
    rw [encObjRest, encSepObjRest, encJson_eq_encSep v, encObjRest_eq_encSepObjRest kvs]
    simp

end

theorem nl_notMem_hex4 (n : Nat) : nlChar ∉ bsChar :: 'u' :: hex4 n := by
  have hhex : ∀ d : Nat, d < 16 → ¬(nlChar = hexDigitChar d) := by decide
  intro hm
  simp only [hex4, List.mem_cons, List.not_mem_nil, or_false] at hm
  rcases hm with h | h | h | h | h | h
  · exact absurd h (by decide)
  · exact absurd h (by decide)
  · exact hhex _ (by omega) h
  · exact hhex _ (by omega) h
  · exact hhex _ (by omega) h
  · exact hhex _ (by omega) h

theorem nl_notMem_escChar (c : Char) : nlChar ∉ escChar c := by
  by_cases hq : c = qChar
  · subst hq; decide
  · by_cases hbs : c = bsChar
    · subst hbs; decide
    · by_cases h8 : c = Char.ofNat 8
      · subst h8; decide
      · by_cases h12 : c = Char.ofNat 12
        · subst h12; decide
        · by_cases hnl : c = nlChar
          · subst hnl; decide
          · by_cases h13 : c = Char.ofNat 13
            · subst h13; decide
            · by_cases h9 : c = Char.ofNat 9
              · subst h9; decide
              · by_cases h32 : c.toNat < 32
                · rw [show escChar c = bsChar :: 'u' :: hex4 c.toNat from by
                    simp [escChar, hq, hbs, h8, h12, hnl, h13, h9, h32]]
                  exact nl_notMem_hex4 c.toNat
                · by_cases h127 : c.toNat < 127
                  · rw [show escChar c = [c] from by
                      simp [escChar, hq, hbs, h8, h12, hnl, h13, h9, h32, h127]]
                    intro hm
                    simp only [List.mem_singleton] at hm
                    exact hnl (hm ▸ rfl)
                  · by_cases h65536 : c.toNat < 65536
                    · rw [show escChar c = bsChar :: 'u' :: hex4 c.toNat from by
                        simp [escChar, hq, hbs, h8, h12, hnl, h13, h9, h32, h127, h65536]]
                      exact nl_notMem_hex4 c.toNat
                    · rw [show escChar c =
                        (bsChar :: 'u' :: hex4 (55296 + (c.toNat - 65536) / 1024)) ++
                          (bsChar :: 'u' :: hex4 (56320 + (c.toNat - 65536) % 1024)) from by
                        simp [escChar, hq, hbs, h8, h12, hnl, h13, h9, h32, h127, h65536]]
                      intro hm
                      rcases List.mem_append.mp hm with h | h
                      · exact nl_notMem_hex4 _ h
                      · exact nl_notMem_hex4 _ h

theorem nl_notMem_natDigits (n : Nat) : nlChar ∉ natDigits n := by
  have hfact : ∀ d : Nat, d < 10 → ¬(nlChar = hexDigitChar d) := by decide
  induction n using Nat.strong_induction_on with
  | _ n ih =>
    by_cases h : n < 10
    · rw [natDigits_unfold, if_pos h]
      intro hm
      simp only [List.mem_singleton] at hm
      exact hfact n h hm
    · rw [natDigits_unfold, if_neg h]
      intro hm
      rcases List.mem_append.mp hm with hm | hm
      · exact ih (n / 10) (Nat.div_lt_self (by omega) (by omega)) hm
      · simp only [List.mem_singleton] at hm
        exact hfact (n % 10) (by omega) hm

theorem nl_notMem_intChars (n : Int) : nlChar ∉ intChars n := by
  cases n with
  | ofNat m => exact nl_notMem_natDigits m
  | negSucc m =>
    intro hm
    rcases List.mem_cons.mp hm with h | h
    · exact absurd h (by decide)
    · exact nl_notMem_natDigits (m + 1) h

theorem nl_notMem_encStr (s : String) : nlChar ∉ encStr s := by
  intro hm
  simp only [encStr, List.mem_cons, List.mem_append, List.mem_singleton] at hm
  rcases hm with (h | h) | h
  · exact absurd h (by decide)
  · obtain ⟨c, _, hc⟩ := List.mem_flatMap.mp h
    exact nl_notMem_escChar c hc
  · exact absurd h (by decide)

mutual

theorem nl_notMem_encJson : (j : Json) → nlChar ∉ encJson j
  | Json.null => by decide
  | Json.bool true => by decide
  | Json.bool false => by decide
  | Json.num n => nl_notMem_intChars n
  | Json.str s => nl_notMem_encStr s
  | Json.arr [] => by decide
  | Json.arr (x :: xs) => by
    intro hm
    simp only [encJson, List.mem_cons, List.mem_append, List.mem_singleton] at hm
    rcases hm with (h | h | h) | h
    · exact absurd h (by decide)
    · exact nl_notMem_encJson x h
    · exact nl_notMem_encArrRest xs h
    · exact absurd h (by decide)
  | Json.obj [] => by decide
  | Json.obj ((k, v) :: kvs) => by
    intro hm
    simp only [encJson, List.mem_cons, List.mem_append, List.mem_singleton] at hm
    rcases hm with (h | (h | h | h | h) | h) | h | h
    · exact absurd h (by decide)
    · exact nl_notMem_encStr k h
    · exact absurd h (by decide)
    · exact absurd h (by decide)
    · exact nl_notMem_encJson v h
    · exact nl_notMem_encObjRest kvs h
    · exact absurd h (by decide)
    · exact absurd h (List.not_mem_nil _)

theorem nl_notMem_encArrRest : (xs : List Json) → nlChar ∉ encArrRest xs
  | [] => by decide
  | x :: xs => by
    intro hm
    simp only [encArrRest, List.mem_cons, List.mem_append] at hm
    rcases hm with (h | h | h) | h
    · exact absurd h (by decide)
    · exact absurd h (by decide)
    · exact nl_notMem_encJson x h
    · exact nl_notMem_encArrRest xs h

theorem nl_notMem_encObjRest : (kvs : List (String × Json)) → nlChar ∉ encObjRest kvs
  | [] => by decide
  | (k, v) :: kvs => by
    intro hm
    simp only [encObjRest, List.mem_cons, List.mem_append] at hm
    rcases hm with ((h | h | h) | h | h | h) | h
    · exact absurd h (by decide)
    · exact absurd h (by decide)
    · exact nl_notMem_encStr k h
    · exact absurd h (by decide)
    · exact absurd h (by decide)
    · exact nl_notMem_encJson v h
    · exact nl_notMem_encObjRest kvs h

end

theorem wjf_fst (env : Env) (d : PyValue) (dir fname : String) (pretty : Bool) (fs : FS) :
    (write_json_file env d dir fname pretty fs).1 = writeOk env d dir fname pretty := by
  unfold write_json_file writeOk
  cases json_dumps pretty d with
  | none => rfl
  | some s =>
    dsimp only
    by_cases hm : env.mkdirFails dir
    · simp [hm]
    · by_cases hw : env.writeFails (dir ++ "/" ++ fname)
      · simp [hm, hw]
      · simp [hm, hw]

theorem lookup_filter_ne (l : List (String × String)) (p q : String) (hq : ¬(q = p)) :
    (l.filter (fun e => !(e.1 == p))).lookup q = l.lookup q := by
  induction l with
  | nil => rfl
  | cons e rest ih =>
    obtain ⟨ep, ec⟩ := e
    by_cases hep : ep = p
    · subst hep
      rw [List.filter_cons_of_neg (by simp)]
      rw [ih]
      have hqe : (q == ep) = false := by simp [hq]
      simp [List.lookup, hqe]
    · rw [List.filter_cons_of_pos (by simp [hep])]
      cases hqe : (q == ep) with
      | true => simp [List.lookup, hqe]
      | false => simp [List.lookup, hqe, ih]

theorem lookup_setFile (fs : FS) (p c q : String) :
    ((fs.setFile p c).files).lookup q = if q = p then some c else fs.files.lookup q := by
  unfold FS.setFile
  by_cases hq : q = p
  · simp [hq, List.lookup]
  · have hqe : (q == p) = false := by simp [hq]
    simp only [List.lookup, hqe, if_neg hq]
    exact lookup_filter_ne fs.files p q hq

theorem wjf_files (env : Env) (d : PyValue) (dir fname : String) (pretty : Bool) (fs : FS)
    (q : String) :
    ((write_json_file env d dir fname pretty fs).2).files.lookup q =
      if writeOk env d dir fname pretty = true ∧ q = dir ++ "/" ++ fname then json_dumps pretty d
      else fs.files.lookup q := by
  unfold write_json_file writeOk
  cases hd : json_dumps pretty d with
  | none => simp
  | some s =>
    dsimp only
    by_cases hm : env.mkdirFails dir
    · simp [hm]
    · by_cases hw : env.writeFails (dir ++ "/" ++ fname)
      · simp [hm, hw, FS.addDir]
        split <;> rfl
      · simp only [hm, hw, Bool.not_true, Bool.not_false, if_neg, if_pos, Bool.false_eq_true,
          ite_false, ite_true, Bool.true_and]
        have hlk : ((fs.addDir dir).setFile (dir ++ "/" ++ fname) s).files.lookup q =
            if q = dir ++ "/" ++ fname then some s else (fs.addDir dir).files.lookup q :=
          lookup_setFile _ _ _ _
        have hdirs : (fs.addDir dir).files = fs.files := by
          unfold FS.addDir
          split <;> rfl
        rw [hdirs] at hlk
        rw [hlk]
        split <;> simp_all

theorem wfits_files (env : Env) (outDir : String) (pretty : Bool)
    (entries : List (String × Option PyValue)) : ∀ (fs : FS) (q : String),
    ((write_fits env outDir pretty entries fs).2.1).files.lookup q =
      match fitsMap env outDir pretty entries q with
      | some c => some c
      | none => fs.files.lookup q := by
  induction entries with
  | nil => intro fs q; rfl
  | cons e rest ih =>
    obtain ⟨fname, dOpt⟩ := e
    cases dOpt with
    | none =>
      intro fs q
      rw [show write_fits env outDir pretty ((fname, none) :: rest) fs =
        (let r := write_fits env outDir pretty rest fs
         (r.1, r.2.1, r.2.2.1, r.2.2.2 + 1)) from rfl]
      exact ih fs q
    | some d =>
      intro fs q
      rw [show write_fits env outDir pretty ((fname, some d) :: rest) fs =
        (let w := write_json_file env d outDir fname pretty fs
         let r := write_fits env outDir pretty rest w.2
         (w.1 && r.1, r.2.1, (outDir ++ "/" ++ fname, w.1) :: r.2.2.1, r.2.2.2)) from rfl]
      dsimp only
      rw [ih]
      rw [show fitsMap env outDir pretty ((fname, some d) :: rest) q =
        (match fitsMap env outDir pretty rest q with
         | some c => some c
         | none =>
           if writeOk env d outDir fname pretty = true ∧ q = outDir ++ "/" ++ fname then
             json_dumps pretty d
           else none) from rfl]
      cases fitsMap env outDir pretty rest q with
      | some c => rfl
      | none =>
        dsimp only
        rw [wjf_files]
        split
        · next h =>
          obtain ⟨hok, _⟩ := h
          obtain ⟨s, hs⟩ : ∃ s, json_dumps pretty d = some s := by
            unfold writeOk at hok
            cases hdd : json_dumps pretty d with
            | none => rw [hdd] at hok; exact absurd hok (by simp)
            | some s => exact ⟨s, rfl⟩
          rw [hs]
        · rfl

theorem wfits_success (env : Env) (outDir : String) (pretty : Bool)
    (entries : List (String × Option PyValue)) : ∀ (fs : FS),
    (write_fits env outDir pretty entries fs).1 =
      entries.all (fun e =>
        match e.2 with
        | none => true
        | some d => writeOk env d outDir e.1 pretty) := by
  induction entries with
  | nil => intro fs; rfl
  | cons e rest ih =>
    obtain ⟨fname, dOpt⟩ := e
    cases dOpt with
    | none =>
      intro fs
      simp only [List.all_cons]
      rw [show (write_fits env outDir pretty ((fname, none) :: rest) fs).1 =
        (write_fits env outDir pretty rest fs).1 from rfl]
      rw [ih fs]
      rfl
    | some d =>
      intro fs
      simp only [List.all_cons]
      rw [show (write_fits env outDir pretty ((fname, some d) :: rest) fs).1 =
        ((write_json_file env d outDir fname pretty fs).1 &&
          (write_fits env outDir pretty rest
            (write_json_file env d outDir fname pretty fs).2).1) from rfl]
      rw [ih, wjf_fst]

theorem wfits_writeResults (env : Env) (outDir : String) (pretty : Bool)
    (entries : List (String × Option PyValue)) : ∀ (fs : FS),
    (write_fits env outDir pretty entries fs).2.2.1 =
      entries.filterMap (fun e =>
        e.2.map (fun d => (outDir ++ "/" ++ e.1, writeOk env d outDir e.1 pretty))) := by
  induction entries with
  | nil => intro fs; rfl
  | cons e rest ih =>
    obtain ⟨fname, dOpt⟩ := e
    cases dOpt with
    | none =>
      intro fs
      rw [show (write_fits env outDir pretty ((fname, none) :: rest) fs).2.2.1 =
        (write_fits env outDir pretty rest fs).2.2.1 from rfl]
      rw [ih fs]
      rfl
    | some d =>
      intro fs
      rw [show (write_fits env outDir pretty ((fname, some d) :: rest) fs).2.2.1 =
        ((outDir ++ "/" ++ fname, (write_json_file env d outDir fname pretty fs).1) ::
          (write_fits env outDir pretty rest
            (write_json_file env d outDir fname pretty fs).2).2.2.1) from rfl]
      rw [ih, wjf_fst]
      rfl

theorem wfits_warnings (env : Env) (outDir : String) (pretty : Bool)
    (entries : List (String × Option PyValue)) : ∀ (fs : FS),
    (write_fits env outDir pretty entries fs).2.2.2 =
      entries.countP (fun e => e.2.isNone) := by
  induction entries with
  | nil => intro fs; rfl
  | cons e rest ih =>
    obtain ⟨fname, dOpt⟩ := e
    cases dOpt with
    | none =>
      intro fs
      rw [show (write_fits env outDir pretty ((fname, none) :: rest) fs).2.2.2 =
        (write_fits env outDir pretty rest fs).2.2.2 + 1 from rfl]
      rw [ih fs]
      simp [List.countP_cons]
    | some d =>
      intro fs
      rw [show (write_fits env outDir pretty ((fname, some d) :: rest) fs).2.2.2 =
        (write_fits env outDir pretty rest
          (write_json_file env d outDir fname pretty fs).2).2.2.2 from rfl]
      rw [ih]
      simp [List.countP_cons]

theorem wfits_success_eq (env : Env) (outDir : String) (pretty : Bool)
    (entries : List (String × Option PyValue)) : ∀ (fs : FS),
    (write_fits env outDir pretty entries fs).1 =
      ((write_fits env outDir pretty entries fs).2.2.1).all (fun r => r.2) := by
  induction entries with
  | nil => intro fs; rfl
  | cons e rest ih =>
    obtain ⟨fname, dOpt⟩ := e
    cases dOpt with
    | none => intro fs; exact ih fs
    | some d =>
      intro fs
      rw [show (write_fits env outDir pretty ((fname, some d) :: rest) fs).1 =
        ((write_json_file env d outDir fname pretty fs).1 &&
          (write_fits env outDir pretty rest
            (write_json_file env d outDir fname pretty fs).2).1) from rfl]
      rw [show (write_fits env outDir pretty ((fname, some d) :: rest) fs).2.2.1 =
        ((outDir ++ "/" ++ fname, (write_json_file env d outDir fname pretty fs).1) ::
          (write_fits env outDir pretty rest
            (write_json_file env d outDir fname pretty fs).2).2.2.1) from rfl]
      rw [List.all_cons, ih]

/-- Once both modules load, `Profile` is present, extraction is non-empty,
and the output-directory creation succeeds, the run is exactly the write
phase: `profile.json` first (exiting on failure), then the fit loop. -/
theorem run_main_writes (env : Env) (outDir : String) (pretty : Bool) (fs : FS)
    (pm : Namespace) (pv : PyValue) (fm : Namespace)
    (hp : find_module env "profile" = Except.ok (some pm))
    (hP : pm "Profile" = some pv)
    (hf : find_module env "fit" = Except.ok (some fm))
    (hne : (extract_fit_objects fm).isEmpty = false)
    (hmk : env.mkdirFails outDir = false) :
    run_main env outDir pretty fs =
      (if writeOk env pv outDir "profile.json" pretty then
        (let r := write_fits env outDir pretty (fitEntries (extract_fit_objects fm))
            ((write_json_file env pv outDir "profile.json" pretty (fs.addDir outDir)).2)
         ⟨r.2.1, if r.1 then Outcome.exited 0 else Outcome.exited 1,
          (outDir ++ "/profile.json", true) :: r.2.2.1, r.2.2.2, []⟩)
      else
        ⟨(write_json_file env pv outDir "profile.json" pretty (fs.addDir outDir)).2,
         Outcome.exited 1, [(outDir ++ "/profile.json", false)], 0, []⟩) := by
  unfold run_main
  rw [hp]
  dsimp only
  rw [hP]
  dsimp only
  rw [hf]
  dsimp only
  rw [hne]
  simp only [Bool.false_eq_true, if_false]
  rw [hmk]
  simp only [Bool.false_eq_true, if_false]
  rw [wjf_fst]
  cases hok : writeOk env pv outDir "profile.json" pretty with
  | true => simp
  | false => simp

theorem extract_eq_filterMap (ns : Namespace) :
    extract_fit_objects ns =
      fitNames.filterMap (fun k => (ns k).map (fun v => (k, v))) := by
  cases h1 : ns "BASE_TYPE" <;> cases h2 : ns "FIELD_TYPE_TO_BASE_TYPE" <;>
    cases h3 : ns "BASE_TYPE_DEFINITIONS" <;> cases h4 : ns "NUMERIC_FIELD_TYPES" <;>
    simp [extract_fit_objects, fitNames, h1, h2, h3, h4]

theorem extract_lookup_mem (ns : Namespace) (k : String) (hk : k ∈ fitNames) :
    (extract_fit_objects ns).lookup k = ns k := by
  simp only [fitNames, List.mem_cons, List.not_mem_nil, or_false] at hk
  cases h1 : ns "BASE_TYPE" <;> cases h2 : ns "FIELD_TYPE_TO_BASE_TYPE" <;>
    cases h3 : ns "BASE_TYPE_DEFINITIONS" <;> cases h4 : ns "NUMERIC_FIELD_TYPES" <;>
    rcases hk with rfl | rfl | rfl | rfl <;>
    simp +decide [extract_fit_objects, h1, h2, h3, h4, List.lookup]

theorem extract_lookup_not_mem (ns : Namespace) (k : String) (hk : ¬(k ∈ fitNames)) :
    (extract_fit_objects ns).lookup k = none := by
  simp only [fitNames, List.mem_cons, List.not_mem_nil, or_false] at hk
  push_neg at hk
  obtain ⟨n1, n2, n3, n4⟩ := hk
  have hb1 : (k == "BASE_TYPE") = false := by simp [n1]
  have hb2 : (k == "FIELD_TYPE_TO_BASE_TYPE") = false := by simp [n2]
  have hb3 : (k == "BASE_TYPE_DEFINITIONS") = false := by simp [n3]
  have hb4 : (k == "NUMERIC_FIELD_TYPES") = false := by simp [n4]
  cases h1 : ns "BASE_TYPE" <;> cases h2 : ns "FIELD_TYPE_TO_BASE_TYPE" <;>
    cases h3 : ns "BASE_TYPE_DEFINITIONS" <;> cases h4 : ns "NUMERIC_FIELD_TYPES" <;>
    simp [extract_fit_objects, List.lookup, h1, h2, h3, h4, hb1, hb2, hb3, hb4]

theorem extract_isEmpty (ns : Namespace) :
    (extract_fit_objects ns).isEmpty = true ↔
      ns "BASE_TYPE" = none ∧ ns "FIELD_TYPE_TO_BASE_TYPE" = none ∧
      ns "BASE_TYPE_DEFINITIONS" = none ∧ ns "NUMERIC_FIELD_TYPES" = none := by
  cases h1 : ns "BASE_TYPE" <;> cases h2 : ns "FIELD_TYPE_TO_BASE_TYPE" <;>
    cases h3 : ns "BASE_TYPE_DEFINITIONS" <;> cases h4 : ns "NUMERIC_FIELD_TYPES" <;>
    simp [extract_fit_objects, h1, h2, h3, h4]

/-- When the profile module resolves and has Profile but the fit module is
missing, the run exits 1 having touched nothing. -/
theorem run_main_no_fit (env : Env) (outDir : String) (pretty : Bool) (fs : FS)
    (pm : Namespace) (pv : PyValue)
    (hp : find_module env "profile" = Except.ok (some pm))
    (hP : pm "Profile" = some pv)
    (hf : find_module env "fit" = Except.ok none) :
    run_main env outDir pretty fs =
      ⟨fs, Outcome.exited 1, [], 0, [fitLoadErr env.path]⟩ := by
  unfold run_main
  rw [hp]
  dsimp only
  rw [hP]
  dsimp only
  rw [hf]

/-- When both modules resolve with Profile present but none of the four fit
names exists, the run exits 1 at the extraction check. -/
theorem run_main_empty_extract (env : Env) (outDir : String) (pretty : Bool) (fs : FS)
    (pm : Namespace) (pv : PyValue) (fm : Namespace)
    (hp : find_module env "profile" = Except.ok (some pm))
    (hP : pm "Profile" = some pv)
    (hf : find_module env "fit" = Except.ok (some fm))
    (he : (extract_fit_objects fm).isEmpty = true) :
    run_main env outDir pretty fs =
      ⟨fs, Outcome.exited 1, [], 0, [noFitObjsErr]⟩ := by
  unfold run_main
  rw [hp]
  dsimp only
  rw [hP]
  dsimp only
  rw [hf]
  dsimp only
  rw [he]
  rfl

theorem str_append_inj (a b c : String) (h : a ++ b = a ++ c) : b = c := by
  have hd : (a ++ b).data = (a ++ c).data := by rw [h]
  rw [String.data_append, String.data_append] at hd
  have h2 := List.append_cancel_left hd
  cases b
  cases c
  simp only at h2
  rw [h2]

theorem run_files_lookup (env : Env) (outDir : String) (pretty : Bool) (fs : FS)
    (pm : Namespace) (pv : PyValue) (fm : Namespace)
    (hp : find_module env "profile" = Except.ok (some pm))
    (hP : pm "Profile" = some pv)
    (hf : find_module env "fit" = Except.ok (some fm))
    (hne : (extract_fit_objects fm).isEmpty = false)
    (hmk : env.mkdirFails outDir = false) (q : String) :
    ((run_main env outDir pretty fs).fs).files.lookup q =
      match runMap env outDir pretty pv fm q with
      | some c => some c
      | none => fs.files.lookup q := by
  rw [run_main_writes env outDir pretty fs pm pv fm hp hP hf hne hmk]
  unfold runMap
  have haddf : (fs.addDir outDir).files = fs.files := by
    unfold FS.addDir
    split <;> rfl
  cases hok : writeOk env pv outDir "profile.json" pretty with
  | false =>
    simp only [Bool.false_eq_true, if_false]
    rw [wjf_files]
    rw [if_neg (by simp [hok])]
    rw [haddf]
  | true =>
    simp only [if_true]
    rw [wfits_files]
    cases fitsMap env outDir pretty (fitEntries (extract_fit_objects fm)) q with
    | some c => rfl
    | none =>
      dsimp only
      rw [wjf_files, haddf]
      obtain ⟨s, hs⟩ : ∃ s, json_dumps pretty pv = some s := by
        unfold writeOk at hok
        cases hdd : json_dumps pretty pv with
        | none => rw [hdd] at hok; exact absurd hok (by simp)
        | some s => exact ⟨s, rfl⟩
      by_cases hq : q = outDir ++ "/" ++ "profile.json"
      · simp [hok, hq, hs]
      · simp [hok, hq]

theorem fitsMap_isSome_of_result (env : Env) (outDir : String) (pretty : Bool) :
    ∀ (entries : List (String × Option PyValue)) (q : String),
    (q, true) ∈ entries.filterMap (fun e =>
      e.2.map (fun d => (outDir ++ "/" ++ e.1, writeOk env d outDir e.1 pretty))) →
    (fitsMap env outDir pretty entries q).isSome = true := by
  intro entries
  induction entries with
  | nil => intro q h; simp at h
  | cons e rest ih =>
    obtain ⟨fname, dOpt⟩ := e
    cases dOpt with
    | none =>
      intro q h
      simp only [List.filterMap_cons, Option.map_none'] at h
      exact ih q h
    | some d =>
      intro q h
      simp only [List.filterMap_cons, Option.map_some', List.mem_cons] at h
      rcases h with h | h
      · obtain ⟨hq, hok⟩ := Prod.mk.injEq .. ▸ h
        rw [show fitsMap env outDir pretty ((fname, some d) :: rest) q =
          (match fitsMap env outDir pretty rest q with
           | some c => some c
           | none =>
             if writeOk env d outDir fname pretty = true ∧ q = outDir ++ "/" ++ fname then
               json_dumps pretty d
             else none) from rfl]
        cases fitsMap env outDir pretty rest q with
        | some c => rfl
        | none =>
          dsimp only
          rw [if_pos ⟨hok.symm, hq⟩]
          unfold writeOk at hok
          cases hdd : json_dumps pretty d with
          | none => rw [hdd] at hok; exact absurd hok.symm (by simp)
          | some s => simp [hdd]
      · have := ih q h
        rw [show fitsMap env outDir pretty ((fname, some d) :: rest) q =
          (match fitsMap env outDir pretty rest q with
           | some c => some c
           | none =>
             if writeOk env d outDir fname pretty = true ∧ q = outDir ++ "/" ++ fname then
               json_dumps pretty d
             else none) from rfl]
        cases hr : fitsMap env outDir pretty rest q with
        | some c => rfl
        | none => rw [hr] at this; simp at this

theorem fitsMap_none_of_not_result (env : Env) (outDir : String) (pretty : Bool) :
    ∀ (entries : List (String × Option PyValue)) (q : String),
    (∀ b, ¬((q, b) ∈ entries.filterMap (fun e =>
      e.2.map (fun d => (outDir ++ "/" ++ e.1, writeOk env d outDir e.1 pretty))))) →
    fitsMap env outDir pretty entries q = none := by
  intro entries
  induction entries with
  | nil => intro q _; rfl
  | cons e rest ih
 =>
    obtain ⟨fname, dOpt⟩ := e
    cases dOpt with
    | none =>
      intro q h
      simp only [List.filterMap_cons, Option.map_none'] at h
      exact ih q h
    | some d =>
      intro q h
      simp only [List.filterMap_cons, Option.map_some', List.mem_cons] at h
      have hrest : ∀ b, ¬((q, b) ∈ rest.filterMap (fun e =>
          e.2.map (fun d => (outDir ++ "/" ++ e.1, writeOk env d outDir e.1 pretty)))) :=
        fun b hb => h b (Or.inr hb)
      have hq : ¬(q = outDir ++ "/" ++ fname) := by
        intro hq
        exact h (writeOk env d outDir fname pretty) (Or.inl (by rw [hq]))
      rw [show fitsMap env outDir pretty ((fname, some d) :: rest) q =
        (match fitsMap env outDir pretty rest q with
         | some c => some c
         | none =>
           if writeOk env d outDir fname pretty = true ∧ q = outDir ++ "/" ++ fname then
             json_dumps pretty d
           else none) from rfl]
      rw [ih q hrest]
      dsimp only
      rw [if_neg (fun hc => hq hc.2)]

theorem extract_lookup_fits (fm : Namespace) :
    (extract_fit_objects fm).lookup "BASE_TYPE" = fm "BASE_TYPE" ∧
    (extract_fit_objects fm).lookup "FIELD_TYPE_TO_BASE_TYPE" = fm "FIELD_TYPE_TO_BASE_TYPE" ∧
    (extract_fit_objects fm).lookup "BASE_TYPE_DEFINITIONS" = fm "BASE_TYPE_DEFINITIONS" ∧
    (extract_fit_objects fm).lookup "NUMERIC_FIELD_TYPES" = fm "NUMERIC_FIELD_TYPES" :=
  ⟨extract_lookup_mem fm _ (by simp [fitNames]), extract_lookup_mem fm _ (by simp [fitNames]),
   extract_lookup_mem fm _ (by simp [fitNames]), extract_lookup_mem fm _ (by simp [fitNames])⟩

theorem collapse_cases (o : Option PyValue) :
    (noneCollapse o = none ∧ notNoneVal o = false) ∨
    (∃ d, noneCollapse o = some d ∧ notNoneVal o = true) := by
  cases o with
  | none => exact Or.inl ⟨rfl, rfl⟩
  | some v =>
    cases v with
    | bad => exact Or.inr ⟨_, rfl, rfl⟩
    | ser j =>
      cases j with
      | null => exact Or.inl ⟨rfl, rfl⟩
      | bool b => exact Or.inr ⟨_, rfl, rfl⟩
      | num n => exact Or.inr ⟨_, rfl, rfl⟩
      | str s => exact Or.inr ⟨_, rfl, rfl⟩
      | arr xs => exact Or.inr ⟨_, rfl, rfl⟩
      | obj kvs => exact Or.inr ⟨_, rfl, rfl⟩

theorem fitEntries_extract (fm : Namespace) :
    fitEntries (extract_fit_objects fm) =
      [("base_type.json", noneCollapse (fm "BASE_TYPE")),
       ("field_type_to_base_type.json", noneCollapse (fm "FIELD_TYPE_TO_BASE_TYPE")),
       ("base_type_definitions.json", noneCollapse (fm "BASE_TYPE_DEFINITIONS")),
       ("numeric_field_types.json", noneCollapse (fm "NUMERIC_FIELD_TYPES"))] := by
  obtain ⟨e1, e2, e3, e4⟩ := extract_lookup_fits fm
  simp only [fitEntries, fitGet, e1, e2, e3, e4]

theorem fits_paths_spec (env : Env) (outDir : String) (pretty : Bool) (fm : Namespace) :
    ((fitEntries (extract_fit_objects fm)).filterMap (fun e =>
      e.2.map (fun d => (outDir ++ "/" ++ e.1, writeOk env d outDir e.1 pretty)))).map
        Prod.fst = specFitFilesNN fm outDir := by
  rw [fitEntries_extract]
  rcases collapse_cases (fm "BASE_TYPE") with ⟨hc1, hn1⟩ | ⟨d1, hc1, hn1⟩ <;>
    rcases collapse_cases (fm "FIELD_TYPE_TO_BASE_TYPE") with ⟨hc2, hn2⟩ | ⟨d2, hc2, hn2⟩ <;>
    rcases collapse_cases (fm "BASE_TYPE_DEFINITIONS") with ⟨hc3, hn3⟩ | ⟨d3, hc3, hn3⟩ <;>
    rcases collapse_cases (fm "NUMERIC_FIELD_TYPES") with ⟨hc4, hn4⟩ | ⟨d4, hc4, hn4⟩ <;>
    simp [specFitFilesNN, hc1, hn1, hc2, hn2, hc3, hn3, hc4, hn4]

theorem fits_warnings_spec (fm : Namespace) :
    (fitEntries (extract_fit_objects fm)).countP (fun e => e.2.isNone) =
      (fitNames.filter (fun k => !(notNoneVal (fm k)))).length := by
  rw [fitEntries_extract]
  rcases collapse_cases (fm "BASE_TYPE") with ⟨hc1, hn1⟩ | ⟨d1, hc1, hn1⟩ <;>
    rcases collapse_cases (fm "FIELD_TYPE_TO_BASE_TYPE") with ⟨hc2, hn2⟩ | ⟨d2, hc2, hn2⟩ <;>
    rcases collapse_cases (fm "BASE_TYPE_DEFINITIONS") with ⟨hc3, hn3⟩ | ⟨d3, hc3, hn3⟩ <;>
    rcases collapse_cases (fm "NUMERIC_FIELD_TYPES") with ⟨hc4, hn4⟩ | ⟨d4, hc4, hn4⟩ <;>
    simp [fitNames, hc1, hn1, hc2, hn2, hc3, hn3, hc4, hn4, List.countP_cons]

/-- Claim C10: for every value whose serialization fails, `write_json_file`
returns failure while leaving the filesystem entirely unchanged — no parent
directory is created and the target file is neither created nor truncated,
because `json.dumps` runs to completion before `mkdir` and `open`. -/
theorem claim10_serialization_failure_leaves_fs_unchanged
    (env : Env) (data : PyValue) (dir fname : String) (pretty : Bool) (fs : FS)
    (h : json_dumps pretty data = none) :
    write_json_file env data dir fname pretty fs = (false, fs) := by
  unfold write_json_file
  rw [h]

/-- Witness for C10 at a concrete unserializable value. -/
theorem claim10_witness :
    json_dumps false PyValue.bad = none ∧
    write_json_file envGood PyValue.bad "out" "profile.json" false fs0 = (false, fs0) :=
  ⟨rfl, claim10_serialization_failure_leaves_fs_unchanged envGood PyValue.bad "out"
    "profile.json" false fs0 rfl⟩

/-- Claim C5: for every loaded fit-module namespace, the extractor never
fails (it is a total function) and returns a mapping whose keys are exactly
those of the four fixed names that exist as attributes on the namespace,
each bound to the attribute's value; a key absent from the namespace is
absent from the result rather than bound to a missing-value sentinel. -/
theorem claim5_extractor_exact (ns : Namespace) (k : String) :
    extract_fit_objects ns = fitNames.filterMap (fun n => (ns n).map (fun v => (n, v))) ∧
    (k ∈ fitNames → (extract_fit_objects ns).lookup k = ns k) ∧
    (¬(k ∈ fitNames) → (extract_fit_objects ns).lookup k = none) :=
  ⟨extract_eq_filterMap ns, fun hk => extract_lookup_mem ns k hk,
   fun hk => extract_lookup_not_mem ns k hk⟩

/-- Witness for C5 on a concrete namespace with only `BASE_TYPE` set. -/
theorem claim5_witness :
    ("BASE_TYPE" ∈ fitNames) ∧ ¬("Profile" ∈ fitNames) ∧
    (extract_fit_objects nsFitBase).lookup "BASE_TYPE" =
      some (PyValue.ser (Json.obj [("enum", Json.num 0)])) ∧
    (extract_fit_objects nsFitBase).lookup "Profile" = none := by
  refine ⟨by decide, by decide, ?_, ?_⟩
  · have h := (claim5_extractor_exact nsFitBase "BASE_TYPE").2.1 (by decide)
    rw [h]
    rfl
  · exact (claim5_extractor_exact nsFitBase "Profile").2.2 (by decide)

/-- Claim C2 counterexample: with a loadable profile module exposing
`Profile` but no fit module at the path, the run exits non-zero and
`profile.json` is NOT written — refuting the claim that it is written
before the fit-module failure is detected. -/
theorem claim2_counterexample :
    run_main envNoFit "out" false fs0 =
      ⟨fs0, Outcome.exited 1, [], 0, [fitLoadErr "sdk"]⟩ ∧
    (run_main envNoFit "out" false fs0).fs.files.lookup "out/profile.json" = none := by
  decide

/-- Claim C2 amended: when the configured path contains a loadable profile
module exposing `Profile` but no fit module, the tool exits non-zero
WITHOUT writing `profile.json` (or anything else): the fit module is
resolved before any write is attempted. -/
theorem claim2_amended (env : Env) (outDir : String) (pretty : Bool) (fs : FS)
    (pm : Namespace) (pv : PyValue)
    (hp : find_module env "profile" = Except.ok (some pm))
    (hP : pm "Profile" = some pv)
    (hf : find_module env "fit" = Except.ok none) :
    run_main env outDir pretty fs =
      ⟨fs, Outcome.exited 1, [], 0, [fitLoadErr env.path]⟩ :=
  run_main_no_fit env outDir pretty fs pm pv hp hP hf

/-- Witness for C2 amended at the concrete no-fit environment. -/
theorem claim2_witness :
    (find_module envNoFit "profile" = Except.ok (some nsProfile)) ∧
    (nsProfile "Profile" = some (PyValue.ser (Json.obj [("a", Json.num 1)]))) ∧
    (find_module envNoFit "fit" = Except.ok none) ∧
    run_main envNoFit "out" true fs0 =
      ⟨fs0, Outcome.exited 1, [], 0, [fitLoadErr "sdk"]⟩ :=
  ⟨rfl, rfl, rfl,
   claim2_amended envNoFit "out" true fs0 nsProfile
     (PyValue.ser (Json.obj [("a", Json.num 1)])) rfl rfl rfl⟩

/-- Claim C7 counterexample: when the located `profile.py` exists but raises
while being executed (for example a syntax error), the exception escapes
`find_module` uncaught and the run ends with an unhandled exception and no
diagnostic — refuting the claim that such a failure always stops with a
diagnostic rather than an escaping exception. -/
theorem claim7_counterexample :
    find_module envProfileRaises "profile" = Except.error "SyntaxError: invalid syntax" ∧
    run_main envProfileRaises "out" false fs0 =
      ⟨fs0, Outcome.raised "SyntaxError: invalid syntax", [], 0, []⟩ :=
  ⟨rfl, rfl⟩

/-- Claim C7 amended: when the located module source exists but no module
spec can be created for it, `find_module` returns the not-found signal and
`main` stops with a diagnostic identifying the path; but when executing the
located module raises, the exception propagates out of `find_module`
unhandled. -/
theorem claim7_amended (env : Env) (outDir : String) (pretty : Bool) (fs : FS)
    (hex : env.pathExists = true)
    (hfe : env.isDir = true → (env.mods "profile").fileExists = true) :
    ((env.mods "profile").specOk = false →
      find_module env "profile" = Except.ok none ∧
      (run_main env outDir pretty fs).outcome = Outcome.exited 1 ∧
      (run_main env outDir pretty fs).errs = [profileLoadErr env.path]) ∧
    (∀ e, (env.mods "profile").specOk = true → (env.mods "profile").exec = Except.error e →
      find_module env "profile" = Except.error e ∧
      (run_main env outDir pretty fs).outcome = Outcome.raised e ∧
      (run_main env outDir pretty fs).errs = []) := by
  have hdir : (env.isDir && !(env.mods "profile").fileExists) = false := by
    cases hd : env.isDir with
    | false => rfl
    | true => rw [hfe hd]; rfl
  constructor
  · intro hspec
    have hfm : find_module env "profile" = Except.ok none := by
      unfold find_module
      rw [hex]
      simp only [Bool.not_true, Bool.false_eq_true, if_false]
      rw [hdir]
      simp only [Bool.false_eq_true, if_false]
      rw [hspec]
      rfl
    refine ⟨hfm, ?_, ?_⟩ <;> · unfold run_main; rw [hfm]
  · intro e hspec hexec
    have hfm : find_module env "profile" = Except.error e := by
      unfold find_module
      rw [hex]
      simp only [Bool.not_true, Bool.false_eq_true, if_false]
      rw [hdir]
      simp only [Bool.false_eq_true, if_false]
      rw [hspec]
      simp only [Bool.not_true, Bool.false_eq_true, if_false]
      rw [hexec]
    refine ⟨hfm, ?_, ?_⟩ <;> · unfold run_main; rw [hfm]

/-- Witness for C7 amended: a spec-creation failure for an existing file
yields the not-found diagnostic path, and an exec-time exception
propagates. -/
theorem claim7_witness :
    (envProfileRaises.pathExists = true) ∧
    ((envProfileRaises.mods "profile").exec = Except.error "SyntaxError: invalid syntax") ∧
    find_module envProfileRaises "profile" = Except.error "SyntaxError: invalid syntax" ∧
    (run_main envProfileRaises "out" false fs0).outcome =
      Outcome.raised "SyntaxError: invalid syntax" :=
  ⟨rfl, rfl,
   ((claim7_amended envProfileRaises "out" false fs0 rfl (fun _ => rfl)).2
     "SyntaxError: invalid syntax" rfl rfl).1,
   ((claim7_amended envProfileRaises "out" false fs0 rfl (fun _ => rfl)).2
     "SyntaxError: invalid syntax" rfl rfl).2.1⟩

/-- Claim C6 counterexample: with pretty=false the writer emits
`{"a": 1}` — with a space after the colon — which is not the minimal
compact form `{"a":1}` of the same value. -/
theorem claim6_counterexample :
    json_dumps false (PyValue.ser (Json.obj [("a", Json.num 1)])) =
      some "\x7b\"a\": 1\x7d" ∧
    String.mk (encMin (Json.obj [("a", Json.num 1)])) = "\x7b\"a\":1\x7d" ∧
    ("\x7b\"a\": 1\x7d" : String) ≠ "\x7b\"a\":1\x7d" := by
  refine ⟨by decide, by decide, by decide⟩

/-- Claim C6 amended: with pretty=true the serializer indents by exactly two
more spaces per nesting level, and with pretty=false it produces single-line
output (never containing a newline) using the separators `", "` and `": "` —
compact, but not the whitespace-minimal form. -/
theorem claim6_amended (j : Json) (lvl : Nat) :
    json_dumps false (PyValue.ser j) = some (String.mk (encSep [',', ' '] [':', ' '] j)) ∧
    (encJson j).contains nlChar = false ∧
    (nlInd (lvl + 1)).length = (nlInd lvl).length + 2 := by
  refine ⟨?_, ?_, ?_⟩
  · rw [show json_dumps false (PyValue.ser j) = some (String.mk (encJson j)) from rfl,
      encJson_eq_encSep j]
  · have h := nl_notMem_encJson j
    simpa using h
  · simp only [nlInd, List.length_cons, List.length_replicate]
    omega

/-- Claim C8: any value the writer reports as successfully written is stored
at the target path, and parsing the stored JSON text back yields a value
structurally equal to the one written. -/
theorem claim8_roundtrip (env : Env) (data : PyValue) (dir fname : String) (pretty : Bool)
    (fs : FS) (h : (write_json_file env data dir fname pretty fs).1 = true) :
    ∃ j s, data = PyValue.ser j ∧
      ((write_json_file env data dir fname pretty fs).2).files.lookup (dir ++ "/" ++ fname) =
        some s ∧
      json_loads s = some j := by
  rw [wjf_fst] at h
  cases data with
  | bad => exact absurd h (by unfold writeOk json_dumps; simp)
  | ser j =>
    refine ⟨j, String.mk (if pretty then encP 0 j else encJson j), rfl, ?_, ?_⟩
    · rw [wjf_files, if_pos ⟨h, rfl⟩]
      rfl
    · cases pretty with
      | true => exact json_loads_encP j
      | false => exact json_loads_encJson j

/-- Witness for C8 at a concrete write of `{"a": 1}`. -/
theorem claim8_witness :
    ((write_json_file envGood (PyValue.ser (Json.obj [("a", Json.num 1)])) "out"
      "profile.json" false fs0).1 = true) ∧
    (∃ j s, PyValue.ser (Json.obj [("a", Json.num 1)]) = PyValue.ser j ∧
      ((write_json_file envGood (PyValue.ser (Json.obj [("a", Json.num 1)])) "out"
        "profile.json" false fs0).2).files.lookup ("out" ++ "/" ++ "profile.json") = some s ∧
      json_loads s = some j) :=
  ⟨by decide,
   claim8_roundtrip envGood (PyValue.ser (Json.obj [("a", Json.num 1)])) "out"
     "profile.json" false fs0 (by decide)⟩

theorem profile_path_eq (o : String) : o ++ "/" ++ "profile.json" = o ++ "/profile.json" := by
  rw [String.append_assoc]
  rfl

/-- Claim C3: a write failure on `profile.json` is immediately terminal —
exit 1 with no fit write attempted; a failure on a present fit object does
not stop the remaining fit objects from being attempted (every file whose
source name exists with a non-`None` value is attempted, regardless of
which writes fail), and the run then ends non-zero. -/
theorem claim3_profile_fatal_fit_continue (env : Env) (outDir : String) (pretty : Bool)
    (fs : FS) (pm : Namespace) (pv : PyValue) (fm : Namespace)
    (hp : find_module env "profile" = Except.ok (some pm))
    (hP : pm "Profile" = some pv)
    (hf : find_module env "fit" = Except.ok (some fm))
    (hne : (extract_fit_objects fm).isEmpty = false)
    (hmk : env.mkdirFails outDir = false) :
    (writeOk env pv outDir "profile.json" pretty = false →
      (run_main env outDir pretty fs).outcome = Outcome.exited 1 ∧
      (run_main env outDir pretty fs).writeResults = [(outDir ++ "/profile.json", false)]) ∧
    (writeOk env pv outDir "profile.json" pretty = true →
      (run_main env outDir pretty fs).writeResults.map Prod.fst =
        specExpectedFilesNN fm outDir ∧
      (∀ w, w ∈ (run_main env outDir pretty fs).writeResults → w.2 = false →
        (run_main env outDir pretty fs).outcome = Outcome.exited 1)) := by
  rw [run_main_writes env outDir pretty fs pm pv fm hp hP hf hne hmk]
  constructor
  · intro hok
    rw [hok]
    simp
  · intro hok
    rw [hok]
    simp only [if_true]
    constructor
    · rw [List.map_cons, wfits_writeResults, fits_paths_spec]
      rw [specExpectedFilesNN, profile_path_eq]
    · intro w hw hw2
      rcases List.mem_cons.mp hw with h | h
      · rw [h] at hw2
        exact absurd hw2 (by simp)
      · have hall : (write_fits env outDir pretty (fitEntries (extract_fit_objects fm))
            ((write_json_file env pv outDir "profile.json" pretty (fs.addDir outDir)).2)).1 =
            false := by
          rw [wfits_success_eq]
          rw [List.all_eq_false]
          exact ⟨w, h, by simp [hw2]⟩
        rw [hall]
        rfl

/-- Witness for C3 at a concrete environment whose fit module has one
present name, one `None`-valued name and two absent names. -/
theorem claim3_witness :
    (find_module envFitNull "profile" = Except.ok (some nsProfile)) ∧
    (nsProfile "Profile" = some (PyValue.ser (Json.obj [("a", Json.num 1)]))) ∧
    (find_module envFitNull "fit" = Except.ok (some nsFitNull)) ∧
    ((extract_fit_objects nsFitNull).isEmpty = false) ∧
    (envFitNull.mkdirFails "out" = false) ∧
    ((writeOk envFitNull (PyValue.ser (Json.obj [("a", Json.num 1)])) "out" "profile.json"
        false = false →
      (run_main envFitNull "out" false fs0).outcome = Outcome.exited 1 ∧
      (run_main envFitNull "out" false fs0).writeResults =
        [("out" ++ "/profile.json", false)]) ∧
    (writeOk envFitNull (PyValue.ser (Json.obj [("a", Json.num 1)])) "out" "profile.json"
        false = true →
      (run_main envFitNull "out" false fs0).writeResults.map Prod.fst =
        specExpectedFilesNN nsFitNull "out" ∧
      (∀ w, w ∈ (run_main envFitNull "out" false fs0).writeResults → w.2 = false →
        (run_main envFitNull "out" false fs0).outcome = Outcome.exited 1))) :=
  ⟨rfl, rfl, rfl, rfl, rfl,
   claim3_profile_fatal_fit_continue envFitNull "out" false fs0 nsProfile
     (PyValue.ser (Json.obj [("a", Json.num 1)])) nsFitNull rfl rfl rfl rfl rfl⟩

/-- A present fit name bound to `None` is skipped by the write loop with a
warning, exactly like an absent name: with `FIELD_TYPE_TO_BASE_TYPE = None`
present the run attempts only `profile.json` and `base_type.json`, never
creates `field_type_to_base_type.json`, and prints three warnings. -/
theorem none_value_skipped :
    ((nsFitNull "FIELD_TYPE_TO_BASE_TYPE").isSome = true) ∧
    (run_main envFitNull "out" false fs0).writeResults.map Prod.fst =
      ["out/profile.json", "out/base_type.json"] ∧
    (run_main envFitNull "out" false fs0).fs.files.lookup
      "out/field_type_to_base_type.json" = none ∧
    (run_main envFitNull "out" false fs0).warnings = 3 ∧
    (run_main envFitNull "out" false fs0).outcome = Outcome.exited 0 := by
  decide

/-- Claim C4 counterexample: a run in which `BASE_TYPE` is present (the
extracted set is non-empty) still ends with a non-zero exit code, because
the write of `base_type.json` fails — refuting "Failed iff all four fit
names are absent". -/
theorem claim4_counterexample :
    ((extract_fit_objects nsFitBase).isEmpty = false) ∧
    (run_main envFitWriteFail "out" false fs0).outcome = Outcome.exited 1 := by
  decide

/-- Claim C4 amended: for a successfully loaded fit module (profile already
validated), the run terminates at the extraction check — exit code 1 with
nothing attempted and the missing-objects diagnostic — if and only if all
four fit names are absent; when the extracted set is non-empty and the
output-directory creation does not raise, absent names are non-fatal: in a
run where every attempted write succeeds the tool exits 0, printing one
warning per fit name that is absent or bound to `None`. -/
theorem claim4_amended (env : Env) (outDir : String) (pretty : Bool) (fs : FS)
    (pm : Namespace) (pv : PyValue) (fm : Namespace)
    (hp : find_module env "profile" = Except.ok (some pm))
    (hP : pm "Profile" = some pv)
    (hf : find_module env "fit" = Except.ok (some fm)) :
    (run_main env outDir pretty fs = ⟨fs, Outcome.exited 1, [], 0, [noFitObjsErr]⟩ ↔
      (fm "BASE_TYPE" = none ∧ fm "FIELD_TYPE_TO_BASE_TYPE" = none ∧
       fm "BASE_TYPE_DEFINITIONS" = none ∧ fm "NUMERIC_FIELD_TYPES" = none)) ∧
    ((extract_fit_objects fm).isEmpty = false → env.mkdirFails outDir = false →
      (run_main env outDir pretty fs).writeResults.all (fun w => w.2) = true →
      (run_main env outDir pretty fs).outcome = Outcome.exited 0 ∧
      (run_main env outDir pretty fs).warnings =
        (fitNames.filter (fun k => !(notNoneVal (fm k)))).length) := by
  constructor
  · constructor
    · intro hrec
      by_contra hnotall
      have hne : (extract_fit_objects fm).isEmpty = false := by
        cases he : (extract_fit_objects fm).isEmpty with
        | true => exact absurd ((extract_isEmpty fm).mp he) hnotall
        | false => rfl
      cases hmk : env.mkdirFails outDir with
      | true =>
        have ho : (run_main env outDir pretty fs).outcome = Outcome.raised "OSError" := by
          unfold run_main
          rw [hp]
          dsimp only
          rw [hP]
          dsimp only
          rw [hf]
          dsimp only
          rw [hne]
          simp only [Bool.false_eq_true, if_false]
          rw [hmk]
          rfl
        rw [hrec] at ho
        exact absurd ho (by simp)
      | false =>
        have hwr : (run_main env outDir pretty fs).writeResults = [] := by rw [hrec]
        rw [run_main_writes env outDir pretty fs pm pv fm hp hP hf hne hmk] at hwr
        cases hok : writeOk env pv outDir "profile.json" pretty with
        | true =>
          rw [if_pos hok] at hwr
          dsimp only at hwr
          exact absurd hwr (by simp)
        | false =>
          rw [if_neg (by simp [hok])] at hwr
          dsimp only at hwr
          exact absurd hwr (by simp)
    · intro hall
      exact run_main_empty_extract env outDir pretty fs pm pv fm hp hP hf
        ((extract_isEmpty fm).mpr hall)
  · intro hne hmk hall
    rw [run_main_writes env outDir pretty fs pm pv fm hp hP hf hne hmk] at hall ⊢
    cases hok : writeOk env pv outDir "profile.json" pretty with
    | false =>
      rw [if_neg (by simp [hok])] at hall
      simp at hall
    | true =>
      rw [if_pos hok] at hall
      rw [if_pos (show (true : Bool) = true from rfl)]
      dsimp only at hall ⊢
      rw [List.all_cons] at hall
      simp only [Bool.true_and] at hall
      rw [← wfits_success_eq] at hall
      rw [hall]
      refine ⟨rfl, ?_⟩
      rw [wfits_warnings, fits_warnings_spec]

/-- Witness for C4 amended at a concrete environment whose fit module has
`BASE_TYPE` present, `FIELD_TYPE_TO_BASE_TYPE = None`, and the other two
names absent: the extracted set is non-empty, and the run warns three
times — for the two absent names and for the `None`-valued one. -/
theorem claim4_witness :
    (find_module envFitNull "profile" = Except.ok (some nsProfile)) ∧
    (nsProfile "Profile" = some (PyValue.ser (Json.obj [("a", Json.num 1)]))) ∧
    (find_module envFitNull "fit" = Except.ok (some nsFitNull)) ∧
    ((extract_fit_objects nsFitNull).isEmpty = false) ∧
    (envFitNull.mkdirFails "out" = false) ∧
    ((run_main envFitNull "out" false fs0).writeResults.all (fun w => w.2) = true) ∧
    ((run_main envFitNull "out" false fs0 =
        ⟨fs0, Outcome.exited 1, [], 0, [noFitObjsErr]⟩ ↔
      (nsFitNull "BASE_TYPE" = none ∧ nsFitNull "FIELD_TYPE_TO_BASE_TYPE" = none ∧
       nsFitNull "BASE_TYPE_DEFINITIONS" = none ∧ nsFitNull "NUMERIC_FIELD_TYPES" = none)) ∧
    ((extract_fit_objects nsFitNull).isEmpty = false →
      envFitNull.mkdirFails "out" = false →
      (run_main envFitNull "out" false fs0).writeResults.all (fun w => w.2) = true →
      (run_main envFitNull "out" false fs0).outcome = Outcome.exited 0 ∧
      (run_main envFitNull "out" false fs0).warnings =
        (fitNames.filter (fun k => !(notNoneVal (nsFitNull k)))).length)) :=
  ⟨rfl, rfl, rfl, rfl, rfl, by decide,
   claim4_amended envFitNull "out" false fs0 nsProfile
     (PyValue.ser (Json.obj [("a", Json.num 1)])) nsFitNull rfl rfl rfl⟩

/-- Claim C1 counterexample: in a run where both modules resolve, `Profile`
exists and `BASE_TYPE` is present, but the `profile.json` write fails, the
tool writes none of the expected files and never attempts
`base_type.json` — so it does not write "exactly the subset of the five
fixed output files whose corresponding source name exists". -/
theorem claim1_counterexample :
    ((nsFitBase "BASE_TYPE").isSome = true) ∧
    (run_main envProfileWriteFail "out" false fs0).fs.files.lookup "out/base_type.json" =
      none ∧
    (run_main envProfileWriteFail "out" false fs0).writeResults =
      [("out/profile.json", false)] ∧
    (run_main envProfileWriteFail "out" false fs0).outcome = Outcome.exited 1 := by
  decide

/-- Claim C1 amended: under the claim's preconditions (both modules resolve,
`Profile` exists, at least one fit name is present, and the output-directory
creation does not raise), if the `profile.json` write succeeds the attempted
writes are exactly `profile.json` plus the fit files whose corresponding
source name exists with a non-`None` value; if it fails, only `profile.json`
was attempted and the filesystem contents are unchanged.  The exit code is 0
iff every attempted write succeeded; every successfully attempted file
exists afterwards, and paths never attempted are untouched. -/
theorem claim1_amended (env : Env) (outDir : String) (pretty : Bool) (fs : FS)
    (pm : Namespace) (pv : PyValue) (fm : Namespace)
    (hp : find_module env "profile" = Except.ok (some pm))
    (hP : pm "Profile" = some pv)
    (hf : find_module env "fit" = Except.ok (some fm))
    (hne : (extract_fit_objects fm).isEmpty = false)
    (hmk : env.mkdirFails outDir = false) :
    (writeOk env pv outDir "profile.json" pretty = true →
      (run_main env outDir pretty fs).writeResults.map Prod.fst =
        specExpectedFilesNN fm outDir) ∧
    (writeOk env pv outDir "profile.json" pretty = false →
      (run_main env outDir pretty fs).writeResults.map Prod.fst =
        [outDir ++ "/" ++ "profile.json"] ∧
      ∀ q, (run_main env outDir pretty fs).fs.files.lookup q = fs.files.lookup q) ∧
    ((run_main env outDir pretty fs).outcome = Outcome.exited 0 ↔
      (run_main env outDir pretty fs).writeResults.all (fun w => w.2) = true) ∧
    (∀ q, (q, true) ∈ (run_main env outDir pretty fs).writeResults →
      ((run_main env outDir pretty fs).fs.files.lookup q).isSome = true) ∧
    (∀ q, (∀ b, ¬((q, b) ∈ (run_main env outDir pretty fs).writeResults)) →
      (run_main env outDir pretty fs).fs.files.lookup q = fs.files.lookup q) := by
  have hrw := run_main_writes env outDir pretty fs pm pv fm hp hP hf hne hmk
  have hlk := fun q => run_files_lookup env outDir pretty fs pm pv fm hp hP hf hne hmk q
  cases hok : writeOk env pv outDir "profile.json" pretty with
  | false =>
    rw [hrw, if_neg (by simp [hok])]
    simp only [runMap, hok, Bool.false_eq_true, if_false] at hlk
    rw [hrw, if_neg (by simp [hok])] at hlk
    refine ⟨?_, ?_, ?_, ?_, ?_⟩
    · intro h
      exact absurd h (by simp)
    · intro _
      refine ⟨by rw [profile_path_eq]; rfl, hlk⟩
    · simp
    · intro q hq
      simp at hq
    · intro q _
      exact hlk q
  | true =>
    have hpp := profile_path_eq outDir
    obtain ⟨s, hs⟩ : ∃ s, json_dumps pretty pv = some s := by
      unfold writeOk at hok
      cases hdd : json_dumps pretty pv with
      | none => rw [hdd] at hok; exact absurd hok (by simp)
      | some s => exact ⟨s, rfl⟩
    have hres : (run_main env outDir pretty fs).writeResults =
        (outDir ++ "/profile.json", true) ::
          (fitEntries (extract_fit_objects fm)).filterMap (fun e =>
            e.2.map (fun d => (outDir ++ "/" ++ e.1, writeOk env d outDir e.1 pretty))) := by
      rw [hrw, if_pos hok]
      dsimp only
      rw [wfits_writeResults]
    have hout : (run_main env outDir pretty fs).outcome =
        (if ((fitEntries (extract_fit_objects fm)).filterMap (fun e =>
            e.2.map (fun d => (outDir ++ "/" ++ e.1, writeOk env d outDir e.1 pretty)))).all
              (fun w => w.2) = true
         then Outcome.exited 0 else Outcome.exited 1) := by
      rw [hrw, if_pos hok]
      dsimp only
      rw [wfits_success_eq, wfits_writeResults]
    refine ⟨?_, ?_, ?_, ?_, ?_⟩
    · intro _
      rw [hres, List.map_cons, fits_paths_spec, specExpectedFilesNN, hpp]
    · intro h
      exact absurd h (by simp)
    · rw [hout, hres, List.all_cons]
      simp only [Bool.true_and]
      cases hall : ((fitEntries (extract_fit_objects fm)).filterMap (fun e =>
          e.2.map (fun d => (outDir ++ "/" ++ e.1, writeOk env d outDir e.1 pretty)))).all
            (fun w => w.2) with
      | true => simp
      | false => simp
    · intro q hq
      rw [hres] at hq
      rw [hlk q]
      rcases List.mem_cons.mp hq with h | h
      · have hqp : q = outDir ++ "/profile.json" := congrArg Prod.fst h
        unfold runMap
        rw [if_pos hok]
        cases hfm : fitsMap env outDir pretty (fitEntries (extract_fit_objects fm)) q with
        | some c => simp
        | none =>
          dsimp only
          rw [if_pos (by rw [hpp]; exact hqp), hs]
          simp
      · have := fitsMap_isSome_of_result env outDir pretty
          (fitEntries (extract_fit_objects fm)) q h
        unfold runMap
        rw [if_pos hok]
        cases hfm : fitsMap env outDir pretty (fitEntries (extract_fit_objects fm)) q with
        | some c => simp
        | none => rw [hfm] at this; simp at this
    · intro q hq
      rw [hres] at hq
      have hqp : ¬(q = outDir ++ "/profile.json") := by
        intro hc
        exact hq true (by rw [hc]; exact List.mem_cons_self _ _)
      have hqf : ∀ b, ¬((q, b) ∈ (fitEntries (extract_fit_objects fm)).filterMap (fun e =>
          e.2.map (fun d => (outDir ++ "/" ++ e.1, writeOk env d outDir e.1 pretty)))) :=
        fun b hb => hq b (List.mem_cons_of_mem _ hb)
      rw [hlk q]
      unfold runMap
      rw [if_pos hok,
        fitsMap_none_of_not_result env outDir pretty (fitEntries (extract_fit_objects fm)) q hqf]
      dsimp only
      rw [if_neg (by rw [hpp]; exact hqp)]

/-- Witness for C1 amended at a concrete environment whose fit module has
one present name, one `None`-valued name and two absent names. -/
theorem claim1_witness :
    (find_module envFitNull "profile" = Except.ok (some nsProfile)) ∧
    (nsProfile "Profile" = some (PyValue.ser (Json.obj [("a", Json.num 1)]))) ∧
    (find_module envFitNull "fit" = Except.ok (some nsFitNull)) ∧
    ((extract_fit_objects nsFitNull).isEmpty = false) ∧
    (envFitNull.mkdirFails "out" = false) ∧
    ((writeOk envFitNull (PyValue.ser (Json.obj [("a", Json.num 1)])) "out" "profile.json"
        false = true →
      (run_main envFitNull "out" false fs0).writeResults.map Prod.fst =
        specExpectedFilesNN nsFitNull "out") ∧
    (writeOk envFitNull (PyValue.ser (Json.obj [("a", Json.num 1)])) "out" "profile.json"
        false = false →
      (run_main envFitNull "out" false fs0).writeResults.map Prod.fst =
        ["out" ++ "/" ++ "profile.json"] ∧
      ∀ q, (run_main envFitNull "out" false fs0).fs.files.lookup q = fs0.files.lookup q) ∧
    ((run_main envFitNull "out" false fs0).outcome = Outcome.exited 0 ↔
      (run_main envFitNull "out" false fs0).writeResults.all (fun w => w.2) = true) ∧
    (∀ q, (q, true) ∈ (run_main envFitNull "out" false fs0).writeResults →
      ((run_main envFitNull "out" false fs0).fs.files.lookup q).isSome = true) ∧
    (∀ q, (∀ b, ¬((q, b) ∈ (run_main envFitNull "out" false fs0).writeResults)) →
      (run_main envFitNull "out" false fs0).fs.files.lookup q = fs0.files.lookup q)) :=
  ⟨rfl, rfl, rfl, rfl, rfl,
   claim1_amended envFitNull "out" false fs0 nsProfile
     (PyValue.ser (Json.obj [("a", Json.num 1)])) nsFitNull rfl rfl rfl rfl rfl⟩

/-- Claim C9: running the tool twice against the same inputs and output
directory is idempotent — the second run overwrites the output files and
ends the same way, and every file path holds byte-identical content after
the second run (the embedding's values are deterministically ordered). -/
theorem claim9_idempotent (env : Env) (outDir : String) (pretty : Bool) (fs : FS) :
    (run_main env outDir pretty (run_main env outDir pretty fs).fs).outcome =
      (run_main env outDir pretty fs).outcome ∧
    (run_main env outDir pretty (run_main env outDir pretty fs).fs).writeResults =
      (run_main env outDir pretty fs).writeResults ∧
    (run_main env outDir pretty (run_main env outDir pretty fs).fs).warnings =
      (run_main env outDir pretty fs).warnings ∧
    (run_main env outDir pretty (run_main env outDir pretty fs).fs).errs =
      (run_main env outDir pretty fs).errs ∧
    (∀ q, (run_main env outDir pretty
        (run_main env outDir pretty fs).fs).fs.files.lookup q =
      (run_main env outDir pretty fs).fs.files.lookup q) := by
  cases hp : find_module env "profile" with
  | error e =>
    have h2 : (run_main env outDir pretty fs).fs = fs := by
      unfold run_main; rw [hp]
    have h3 : run_main env outDir pretty ((run_main env outDir pretty fs).fs) =
        run_main env outDir pretty fs := by rw [h2]
    rw [h3]
    exact ⟨rfl, rfl, rfl, rfl, fun q => rfl⟩
  | ok opm =>
    cases opm with
    | none =>
      have h2 : (run_main env outDir pretty fs).fs = fs := by
        unfold run_main; rw [hp]
      have h3 : run_main env outDir pretty ((run_main env outDir pretty fs).fs) =
          run_main env outDir pretty fs := by rw [h2]
      rw [h3]
      exact ⟨rfl, rfl, rfl, rfl, fun q => rfl⟩
    | some pm =>
      cases hP : pm "Profile" with
      | none =>
        have h2 : (run_main env outDir pretty fs).fs = fs := by
          unfold run_main; rw [hp]; dsimp only; rw [hP]
        have h3 : run_main env outDir pretty ((run_main env outDir pretty fs).fs) =
            run_main env outDir pretty fs := by rw [h2]
        rw [h3]
        exact ⟨rfl, rfl, rfl, rfl, fun q => rfl⟩
      | some pv =>
        cases hf : find_module env "fit" with
        | error e =>
          have h2 : (run_main env outDir pretty fs).fs = fs := by
            unfold run_main; rw [hp]; dsimp only; rw [hP]; dsimp only; rw [hf]
          have h3 : run_main env outDir pretty ((run_main env outDir pretty fs).fs) =
              run_main env outDir pretty fs := by rw [h2]
          rw [h3]
          exact ⟨rfl, rfl, rfl, rfl, fun q => rfl⟩
        | ok ofm =>
          cases ofm with
          | none =>
            have h2 : (run_main env outDir pretty fs).fs = fs := by
              rw [run_main_no_fit env outDir pretty fs pm pv hp hP hf]
            have h3 : run_main env outDir pretty ((run_main env outDir pretty fs).fs) =
                run_main env outDir pretty fs := by rw [h2]
            rw [h3]
            exact ⟨rfl, rfl, rfl, rfl, fun q => rfl⟩
          | some fm =>
            cases hne : (extract_fit_objects fm).isEmpty with
            | true =>
              have h2 : (run_main env outDir pretty fs).fs = fs := by
                rw [run_main_empty_extract env outDir pretty fs pm pv fm hp hP hf hne]
              have h3 : run_main env outDir pretty ((run_main env outDir pretty fs).fs) =
                  run_main env outDir pretty fs := by rw [h2]
              rw [h3]
              exact ⟨rfl, rfl, rfl, rfl, fun q => rfl⟩
            | false =>
              cases hmk : env.mkdirFails outDir with
              | true =>
                have h2 : (run_main env outDir pretty fs).fs = fs := by
                  unfold run_main
                  rw [hp]
                  dsimp only
                  rw [hP]
                  dsimp only
                  rw [hf]
                  dsimp only
                  rw [hne]
                  simp only [Bool.false_eq_true, if_false]
                  rw [hmk]
                  rfl
                have h3 : run_main env outDir pretty ((run_main env outDir pretty fs).fs) =
                    run_main env outDir pretty fs := by rw [h2]
                rw [h3]
                exact ⟨rfl, rfl, rfl, rfl, fun q => rfl⟩
              | false =>
                have hrw1 := run_main_writes env outDir pretty fs pm pv fm hp hP hf hne hmk
                have hrw2 := run_main_writes env outDir pretty
                  ((run_main env outDir pretty fs).fs) pm pv fm hp hP hf hne hmk
                have hlk1 := fun q =>
                  run_files_lookup env outDir pretty fs pm pv fm hp hP hf hne hmk q
                have hlk2 := fun q => run_files_lookup env outDir pretty
                  ((run_main env outDir pretty fs).fs) pm pv fm hp hP hf hne hmk q
                refine ⟨?_, ?_, ?_, ?_, ?_⟩
                · rw [hrw2, hrw1]
                  cases hok : writeOk env pv outDir "profile.json" pretty with
                  | false =>
                    rw [if_neg (by simp [hok]), if_neg (by simp [hok])]
                  | true =>
                    rw [if_pos (show (true : Bool) = true from rfl),
                      if_pos (show (true : Bool) = true from rfl)]
                    dsimp only
                    rw [wfits_success, wfits_success]
                · rw [hrw2, hrw1]
                  cases hok : writeOk env pv outDir "profile.json" pretty with
                  | false =>
                    rw [if_neg (by simp [hok]), if_neg (by simp [hok])]
                  | true =>
                    rw [if_pos (show (true : Bool) = true from rfl),
                      if_pos (show (true : Bool) = true from rfl)]
                    dsimp only
                    rw [wfits_writeResults, wfits_writeResults]
                · rw [hrw2, hrw1]
                  cases hok : writeOk env pv outDir "profile.json" pretty with
                  | false =>
                    rw [if_neg (by simp [hok]), if_neg (by simp [hok])]
                  | true =>
                    rw [if_pos (show (true : Bool) = true from rfl),
                      if_pos (show (true : Bool) = true from rfl)]
                    dsimp only
                    rw [wfits_warnings, wfits_warnings]
                · rw [hrw2, hrw1]
                  cases hok : writeOk env pv outDir "profile.json" pretty with
                  | false =>
                    rw [if_neg (by simp [hok]), if_neg (by simp [hok])]
                  | true =>
                    rw [if_pos (show (true : Bool) = true from rfl),
                      if_pos (show (true : Bool) = true from rfl)]
                · intro q
                  rw [hlk2 q]
                  cases hm : runMap env outDir pretty pv fm q with
                  | some c =>
                    rw [hlk1 q, hm]
                  | none => rfl
